import Mathlib

/-!
Verification of the reference-resolution and inlining engine of
yetAnotherHtmlImgInliner (src/index.mjs) against its specification.

Strings are modelled as lists of characters (`LStr`).  The filesystem and
the network are modelled as explicit, total oracles (`FS`, `NetEvent`);
JavaScript exceptions are modelled with `Except` where the source code can
throw, and the source try/catch sites appear as explicit recoveries.
Node library functions used by the source (path.resolve, path.normalize,
path.join, path.extname, decodeURI, url.fileURLToPath, the WHATWG URL
resolver, Buffer base64 encoding, parseInt) are modelled for the POSIX /
ASCII domain the tool operates on.
-/

set_option maxRecDepth 4000

abbrev LStr := List Char

/-- ASCII model of the JavaScript whitespace class used by trim, split
and the regular expressions of the source. -/
def jsSpace (c : Char) : Bool :=
  c == ' ' || c == '\t' || c == '\n' || c == '\r' || c == '\x0b' || c == '\x0c'

/-- JavaScript word character, used for the regex word boundary. -/
def isWordChar (c : Char) : Bool :=
  ('a' ≤ c && c ≤ 'z') || ('A' ≤ c && c ≤ 'Z') || ('0' ≤ c && c ≤ '9') || c == '_'

/-- ASCII lower-casing of one character (JavaScript toLowerCase on the
ASCII range the tool works with). -/
def lowc (c : Char) : Char :=
  if 'A' ≤ c && c ≤ 'Z' then Char.ofNat (c.toNat + 32) else c

def lowerL (s : LStr) : LStr := s.map lowc

/-- Case-insensitive prefix test, used for the `/^data:/i` and
`/^(https?:|\/\/)/i` tests of the source. -/
def ciStartsWith : LStr → LStr → Bool
  | [], _ => true
  | _ :: _, [] => false
  | p :: ps, c :: cs => lowc c == lowc p && ciStartsWith ps cs

/-- String.prototype.trim of JavaScript. -/
def jsTrim (s : LStr) : LStr :=
  ((s.dropWhile jsSpace).reverse.dropWhile jsSpace).reverse

/-- Split on a single separator character, keeping empty groups, exactly
like String.prototype.split with a one-character separator. -/
def splitChar (sep : Char) : LStr → List LStr
  | [] => [[]]
  | c :: cs =>
    match splitChar sep cs with
    | [] => [[c]]
    | g :: gs => if c == sep then [] :: g :: gs else (c :: g) :: gs

/-- Join a list of strings with a separator string (Array.prototype.join). -/
def joinSep (sep : LStr) : List LStr → LStr
  | [] => []
  | [x] => x
  | x :: y :: rest => x ++ sep ++ joinSep sep (y :: rest)

/-- Index of the first occurrence of a character (String.prototype.indexOf). -/
def indexOfChar (ch : Char) : LStr → Option Nat
  | [] => none
  | c :: cs =>
    if c == ch then some 0
    else match indexOfChar ch cs with
      | some i => some (i + 1)
      | none => none

/-- Prefix of the string up to (excluding) the first occurrence of the
character; the whole string when the character does not occur.  This is
split(ch)[0] of the source. -/
def takeUntilChar (ch : Char) (s : LStr) : LStr := s.takeWhile (fun c => !(c == ch))

/-- Split at the first occurrence of a character; the character itself
belongs to neither part. -/
def splitAtChar (ch : Char) : LStr → Option (LStr × LStr)
  | [] => none
  | c :: cs =>
    if c == ch then some ([], cs)
    else match splitAtChar ch cs with
      | some (a, b) => some (c :: a, b)
      | none => none

/-- Replace the first occurrence of a substring (String.prototype.replace
with a string pattern; an empty pattern inserts at the front). -/
def replaceFirstSub (pat repl : LStr) : LStr → LStr
  | [] => if pat = [] then repl else []
  | c :: cs =>
    if pat = [] then repl ++ c :: cs
    else if pat.isPrefixOf (c :: cs) then repl ++ (c :: cs).drop pat.length
    else c :: replaceFirstSub pat repl cs

def digitChar (n : Nat) : Char := Char.ofNat (48 + n)

def natLStrGo : Nat → Nat → LStr
  | 0, _ => []
  | fuel + 1, n => if n < 10 then [digitChar n] else natLStrGo fuel (n / 10) ++ [digitChar (n % 10)]

/-- Decimal rendering of a natural number. -/
def natToLStr (n : Nat) : LStr := natLStrGo (n + 1) n

/-! ### Base64 (Buffer.from(buf).toString("base64")) -/

def base64Alphabet : LStr :=
  "ABCDEFGHIJKLMNOPQRSTUVWXYZabcdefghijklmnopqrstuvwxyz0123456789+/".toList

def b64c (n : Nat) : Char := base64Alphabet.getD n 'A'

def base64Go : List Nat → LStr
  | [] => []
  | [b1] => [b64c (b1 / 4), b64c (b1 % 4 * 16), '=', '=']
  | [b1, b2] => [b64c (b1 / 4), b64c (b1 % 4 * 16 + b2 / 16), b64c (b2 % 16 * 4), '=']
  | b1 :: b2 :: b3 :: rest =>
    b64c (b1 / 4) :: b64c (b1 % 4 * 16 + b2 / 16) :: b64c (b2 % 16 * 4 + b3 / 64) ::
      b64c (b3 % 64) :: base64Go rest

/-- Standard base64 with padding, as produced by Node Buffer.toString("base64").
Bytes are naturals below 256. -/
def base64Encode (bytes : List Nat) : LStr := base64Go bytes

/-! ### POSIX path model (Node path.resolve / normalize / join / extname) -/

/-- Squash `.` and `..` segments; empty segments are dropped.  For an
absolute path `..` at the root is dropped, for a relative path leading
`..` segments are kept — exactly Node path normalization. -/
def normSegsGo (isAbs : Bool) : List LStr → List LStr → List LStr
  | acc, [] => acc.reverse
  | acc, s :: rest =>
    if s = [] ∨ s = ['.'] then normSegsGo isAbs acc rest
    else if s = ['.', '.'] then
      match acc with
      | [] => if isAbs then normSegsGo isAbs [] rest else normSegsGo isAbs [['.', '.']] rest
      | a :: as =>
        if a = ['.', '.'] then normSegsGo isAbs (s :: a :: as) rest
        else normSegsGo isAbs as rest
    else normSegsGo isAbs (s :: acc) rest

def normSegs (isAbs : Bool) (segs : List LStr) : List LStr := normSegsGo isAbs [] segs

/-- Node path.posix.normalize. -/
def posixNormalize (p : LStr) : LStr :=
  if p = [] then ['.']
  else
    let isAbs := p.head? = some '/'
    let segs := normSegs isAbs (splitChar '/' p)
    let core := joinSep ['/'] segs
    let r : LStr :=
      if isAbs then '/' :: core
      else if core = [] then ['.'] else core
    if p.getLast? = some '/' ∧ r.getLast? ≠ some '/' then r ++ ['/'] else r

/-- Node path.posix.resolve with an absolute first argument. -/
def posixResolve (base p : LStr) : LStr :=
  let joined := if p.head? = some '/' then p else base ++ '/' :: p
  '/' :: joinSep ['/'] (normSegs true (splitChar '/' joined))

/-- Node path.posix.resolve with a single (absolute) argument. -/
def posixResolve1 (base : LStr) : LStr :=
  '/' :: joinSep ['/'] (normSegs true (splitChar '/' base))

/-- Node path.posix.join of two components. -/
def posixJoin (a b : LStr) : LStr :=
  if a = [] ∧ b = [] then ['.'] else posixNormalize (a ++ '/' :: b)

/-- Last path component with trailing slashes removed (the basename used
by Node path.extname). -/
def lastComponent (p : LStr) : LStr :=
  let q := (p.reverse.dropWhile (fun c => c == '/')).reverse
  match (splitChar '/' q).getLast? with
  | some b => b
  | none => []

/-- Index of the last occurrence of a character. -/
def lastIndexOfChar (ch : Char) (s : LStr) : Option Nat :=
  match indexOfChar ch s.reverse with
  | some i => some (s.length - 1 - i)
  | none => none

/-- Node path.posix.extname: the extension of the basename including the
leading dot; empty for dotless names, for names whose only dot is the
leading character, and for the components `.` and `..`. -/
def posixExtname (p : LStr) : LStr :=
  let b := lastComponent p
  if b = ['.'] ∨ b = ['.', '.'] then []
  else
    match lastIndexOfChar '.' b with
    | none => []
    | some 0 => []
    | some i => b.drop i

/-! ### MIME classification (src/index.mjs lines 22-32 and 95-115) -/

/-- The fixed extension table `extsToMime` of the source. -/
def extsToMime (ext : LStr) : Option LStr :=
  if ext = "png".toList then some "image/png".toList
  else if ext = "jpg".toList then some "image/jpeg".toList
  else if ext = "jpeg".toList then some "image/jpeg".toList
  else if ext = "gif".toList then some "image/gif".toList
  else if ext = "webp".toList then some "image/webp".toList
  else if ext = "bmp".toList then some "image/bmp".toList
  else if ext = "ico".toList then some "image/x-icon".toList
  else if ext = "svg".toList then some "image/svg+xml".toList
  else if ext = "avif".toList then some "image/avif".toList
  else none

/-- Character class `[a-z0-9.+-]` with the `i` flag. -/
def isCtChar (c : Char) : Bool :=
  ('a' ≤ c && c ≤ 'z') || ('A' ≤ c && c ≤ 'Z') || ('0' ≤ c && c ≤ '9') ||
    c == '.' || c == '+' || c == '-'

/-- The test `/^image\/[a-z0-9.+-]+/i.test(contentTypeHeader)` of the source. -/
def ctImageTest (h : LStr) : Bool :=
  ciStartsWith "image/".toList h &&
    (match h.drop 6 with
     | [] => false
     | c :: _ => isCtChar c)

/-- The MIME selection block of `bufferToDataUrl` (source lines 96-112):
server content type if it looks like image/*, else the extension table on
the fallback hint, else application/octet-stream. -/
def mimeFor (fallbackPathOrExt : Option LStr) (contentTypeHeader : Option LStr) : LStr :=
  let m1 : Option LStr :=
    match contentTypeHeader with
    | some h => if ctImageTest h then some (jsTrim (takeUntilChar ';' h)) else none
    | none => none
  match m1 with
  | some m => m
  | none =>
    let m2 : Option LStr :=
      match fallbackPathOrExt with
      | some f =>
        if f = [] then none
        else
          let ext := lowerL (if f.contains '.' then (posixExtname f).drop 1 else f)
          extsToMime ext
      | none => none
    match m2 with
    | some m => m
    | none => "application/octet-stream".toList

/-- `bufferToDataUrl` of the source. -/
def bufferToDataUrl (buf : List Nat) (fallbackPathOrExt : Option LStr)
    (contentTypeHeader : Option LStr) : LStr :=
  "data:".toList ++ mimeFor fallbackPathOrExt contentTypeHeader ++
    ";base64,".toList ++ base64Encode buf

/-! ### Percent decoding (decodeURI, url.fileURLToPath) -/

def hexVal (c : Char) : Option Nat :=
  if '0' ≤ c ∧ c ≤ '9' then some (c.toNat - 48)
  else if 'a' ≤ c ∧ c ≤ 'f' then some (c.toNat - 87)
  else if 'A' ≤ c ∧ c ≤ 'F' then some (c.toNat - 55)
  else none

/-- Read one `%XY` escape from the front of the string. -/
def takePctByte : LStr → Option (Nat × LStr)
  | '%' :: a :: b :: rest =>
    match hexVal a, hexVal b with
    | some x, some y => some (16 * x + y, rest)
    | _, _ => none
  | _ => none

/-- Read `k` UTF-8 continuation bytes, each written as a `%XY` escape. -/
def takeConts : Nat → Nat → LStr → Option (Nat × LStr)
  | 0, acc, s => some (acc, s)
  | k + 1, acc, s =>
    match takePctByte s with
    | some (v, rest) =>
      if 0x80 ≤ v ∧ v < 0xC0 then takeConts k (acc * 64 + (v - 0x80)) rest else none
    | none => none

def utf8Min (k : Nat) : Nat := if k = 1 then 0x80 else if k = 2 then 0x800 else 0x10000

/-- ECMAScript percent decoding.  `keep` holds the reserved characters
whose escape sequences are preserved verbatim (nonempty for decodeURI,
empty for component-style decoding).  `none` models a thrown URIError. -/
def pctDecodeGo (keep : Char → Bool) : Nat → LStr → Option LStr
  | 0, _ => none
  | _ + 1, [] => some []
  | fuel + 1, '%' :: rest =>
    match takePctByte ('%' :: rest) with
    | none => none
    | some (b0, rest1) =>
      if b0 < 0x80 then
        let c := Char.ofNat b0
        match pctDecodeGo keep fuel rest1 with
        | none => none
        | some out => some (if keep c then '%' :: rest.take 2 ++ out else c :: out)
      else
        let contCount : Option (Nat × Nat) :=
          if 0xC0 ≤ b0 ∧ b0 < 0xE0 then some (1, b0 - 0xC0)
          else if 0xE0 ≤ b0 ∧ b0 < 0xF0 then some (2, b0 - 0xE0)
          else if 0xF0 ≤ b0 ∧ b0 < 0xF8 then some (3, b0 - 0xF0)
          else none
        match contCount with
        | none => none
        | some (k, hi) =>
          match takeConts k hi rest1 with
          | none => none
          | some (cp, rest2) =>
            if utf8Min k ≤ cp ∧ cp ≤ 0x10FFFF ∧ ¬(0xD800 ≤ cp ∧ cp ≤ 0xDFFF) then
              match pctDecodeGo keep fuel rest2 with
              | none => none
              | some out => some (Char.ofNat cp :: out)
            else none
  | fuel + 1, c :: rest =>
    match pctDecodeGo keep fuel rest with
    | none => none
    | some out => some (c :: out)

/-- Reserved set whose escapes decodeURI leaves untouched. -/
def uriReservedKeep (c : Char) : Bool :=
  c == ';' || c == '/' || c == '?' || c == ':' || c == '@' || c == '&' ||
    c == '=' || c == '+' || c == '$' || c == ',' || c == '#'

/-- Model of ECMAScript decodeURI; `none` is a thrown URIError. -/
def jsDecodeURI (s : LStr) : Option LStr :=
  pctDecodeGo uriReservedKeep (s.length + 1) s

/-- `decodeMaybeURI` of the source: decodeURI with the URIError caught. -/
def decodeMaybeURI (p : LStr) : LStr :=
  match jsDecodeURI p with
  | some s => s
  | none => p

/-- `stripQueryHash` of the source: truncate at the earlier of the first
`?` and the first `#`. -/
def stripQueryHash (p : LStr) : LStr :=
  let iQ := (indexOfChar '?' p).getD p.length
  let iH := (indexOfChar '#' p).getD p.length
  p.take (min iQ iH)

/-- Does the string contain a percent-encoded slash (checked by Node
fileURLToPath before decoding)? -/
def hasEncodedSlash : LStr → Bool
  | '%' :: a :: b :: rest =>
    (a == '2' && (b == 'f' || b == 'F')) || hasEncodedSlash (a :: b :: rest)
  | _ :: rest => hasEncodedSlash rest
  | [] => false

/-- Model of Node url.fileURLToPath on POSIX; `none` is a thrown error
(bad scheme or host, relative URL, malformed or slash-encoding escape). -/
def fileURLToPath (u : LStr) : Option LStr :=
  if ciStartsWith "file://".toList u then
    let rest := u.drop 7
    match splitAtChar '/' rest with
    | none => none
    | some (host, pathRest) =>
      if host = [] ∨ lowerL host = "localhost".toList then
        let rawPath := '/' :: pathRest.takeWhile (fun c => !(c == '?') && !(c == '#'))
        if hasEncodedSlash rawPath then none
        else pctDecodeGo (fun _ => false) (rawPath.length + 1) rawPath
      else none
  else none

/-! ### Filesystem model and local resolution (source lines 39-131) -/

/-- Total oracle for the filesystem calls the source makes.  The stat
fields are only consulted on paths the source has found to exist, and
`readdir` only on directories. -/
structure FS where
  existsAt : LStr → Bool
  statIsFile : LStr → Bool
  statIsDir : LStr → Bool
  statSize : LStr → Nat
  readdir : LStr → List LStr
  readFile : LStr → Except LStr (List Nat)

instance exceptDecEq {α β : Type} [DecidableEq α] [DecidableEq β] :
    DecidableEq (Except α β) := fun a b =>
  match a, b with
  | .ok x, .ok y =>
    if h : x = y then isTrue (by rw [h]) else isFalse (by simp [h])
  | .error x, .error y =>
    if h : x = y then isTrue (by rw [h]) else isFalse (by simp [h])
  | .ok _, .error _ => isFalse (by simp)
  | .error _, .ok _ => isFalse (by simp)

/-- `isDataUrl` of the source: `/^data:/i`. -/
def isDataUrl (src : LStr) : Bool := ciStartsWith "data:".toList src

/-- `isRemote` of the source: `/^(https?:|\/\/)/i`. -/
def isRemote (src : LStr) : Bool :=
  ciStartsWith "http:".toList src || ciStartsWith "https:".toList src ||
    (match src with
     | '/' :: '/' :: _ => true
     | _ => false)

/-- `normalizeRemoteUrl` of the source. -/
def normalizeRemoteUrl (u : LStr) : LStr :=
  match u with
  | '/' :: '/' :: _ => "https:".toList ++ u
  | _ => u

/-- The split `norm.split(/[\\/]+/)` before Boolean filtering: groups of
characters separated by slashes or backslashes. -/
def splitSlashes : LStr → List LStr
  | [] => [[]]
  | c :: cs =>
    match splitSlashes cs with
    | [] => [[c]]
    | g :: gs => if c == '/' || c == '\\' then [] :: g :: gs else (c :: g) :: gs

/-- The nonempty path parts the case-insensitive traversal walks. -/
def pathParts (norm : LStr) : List LStr := (splitSlashes norm).filter (· ≠ [])

/-- The case-insensitive traversal loop of `resolveLocalPath` (source
lines 84-91): walk the parts from `cur`, replacing each part by the first
directory entry matching it case-insensitively, falling back to the
verbatim part; abort to `candidate` when the current path is missing or
not a directory. -/
def resolveTraverse (fs : FS) (candidate : LStr) : List LStr → LStr → LStr
  | [], cur => cur
  | part :: rest, cur =>
    if !(fs.existsAt cur && fs.statIsDir cur) then candidate
    else
      let entries := fs.readdir cur
      let matched := entries.find? (fun e => lowerL e == lowerL part)
      resolveTraverse fs candidate rest (posixJoin cur (matched.getD part))

/-- The part of `resolveLocalPath` after the file URL branch: decode,
strip query and hash, try the exact path, else traverse case-insensitively. -/
def resolveLocalPathTail (fs : FS) (rawSrc baseDir : LStr) : LStr :=
  let decoded := decodeMaybeURI rawSrc
  let noQH := stripQueryHash decoded
  let candidate := posixResolve baseDir noQH
  if fs.existsAt candidate then candidate
  else resolveTraverse fs candidate (pathParts (posixNormalize noQH)) (posixResolve1 baseDir)

/-- `resolveLocalPath` of the source (lines 69-93).  The startsWith test
of the source is case-sensitive. -/
def resolveLocalPath (fs : FS) (rawSrc baseDir : LStr) : LStr :=
  if rawSrc.take 7 = "file://".toList then
    match fileURLToPath rawSrc with
    | some p => p
    | none => resolveLocalPathTail fs rawSrc baseDir
  else resolveLocalPathTail fs rawSrc baseDir

/-- Tail of the resolver with the decodeURI try/catch spelled out. -/
def resolveLocalPathTailE (fs : FS) (rawSrc baseDir : LStr) : LStr :=
  let decoded :=
    match jsDecodeURI rawSrc with
    | some s => s
    | none => rawSrc   -- the catch inside decodeMaybeURI
  let noQH := stripQueryHash decoded
  let candidate := posixResolve baseDir noQH
  if fs.existsAt candidate then candidate
  else resolveTraverse fs candidate (pathParts (posixNormalize noQH)) (posixResolve1 baseDir)

/-- JavaScript evaluation of `resolveLocalPath` with exceptions made
explicit: the two throwing operations (decodeURI and fileURLToPath)
propagate as `Except.error` unless caught — and the source wraps both in
try/catch, so no error escapes. -/
def resolveLocalPathE (fs : FS) (rawSrc baseDir : LStr) : Except Unit LStr :=
  if rawSrc.take 7 = "file://".toList then
    match fileURLToPath rawSrc with
    | some p => Except.ok p
    | none =>
      -- the catch at source line 71 falls through to the generic path
      Except.ok (resolveLocalPathTailE fs rawSrc baseDir)
  else Except.ok (resolveLocalPathTailE fs rawSrc baseDir)

/-- `toDataUrlLocal` result: either a data URL or a typed failure.  This
is the uniform outcome shape `{ok, dataUrl} / {ok:false, reason, size?,
err?}` the source passes around. -/
inductive Outcome where
  | ok (dataUrl : LStr)
  | fail (reason : LStr) (size : Option Nat) (errMsg : Option LStr)
deriving DecidableEq

/-- `toDataUrlLocal` of the source (lines 117-131). -/
def toDataUrlLocal (fs : FS) (filePath : LStr) (maxBytes : Nat) : Outcome :=
  if !fs.existsAt filePath then .fail "not_found".toList none none
  else if !fs.statIsFile filePath then .fail "not_file".toList none none
  else if fs.statSize filePath > maxBytes then
    .fail "too_large".toList (some (fs.statSize filePath)) none
  else
    match fs.readFile filePath with
    | .error e => .fail "read_error".toList none (some e)
    | .ok buf => .ok (bufferToDataUrl buf (some filePath) none)

/-! ### Remote fetching (source lines 133-227) -/

/-- parseInt(s, 10): skip whitespace, optional sign, leading decimal
digits; `none` is NaN. -/
def jsParseInt (s : LStr) : Option Int :=
  let t := s.dropWhile jsSpace
  let signAndRest : Int × LStr :=
    match t with
    | '-' :: r => (-1, r)
    | '+' :: r => (1, r)
    | r => (1, r)
  let digits := signAndRest.2.takeWhile (fun c => '0' ≤ c && c ≤ '9')
  if digits = [] then none
  else some (signAndRest.1 * (digits.foldl (fun n c => n * 10 + (c.toNat - 48)) 0 : Nat))

/-- Does the string start with a URL scheme (letter, then letters,
digits, `+`, `-` or `.`, then a colon)? -/
def hasScheme (u : LStr) : Bool :=
  match u with
  | c :: rest =>
    (('a' ≤ c && c ≤ 'z') || ('A' ≤ c && c ≤ 'Z')) &&
      (match splitAtChar ':' rest with
       | some (body, _) =>
         body.all (fun d => ('a' ≤ d && d ≤ 'z') || ('A' ≤ d && d ≤ 'Z') ||
           ('0' ≤ d && d ≤ '9') || d == '+' || d == '-' || d == '.')
       | none => false)
  | [] => false

/-- Scheme of an absolute URL, colon included. -/
def schemeOf (u : LStr) : LStr := (takeUntilChar ':' u) ++ [':']

/-- String-level model of the WHATWG URL components the source reads:
everything between `scheme://` and the first `/`, `?` or `#` is the
authority; the pathname runs from that `/` to the first `?` or `#` and
is `/` when absent. -/
def urlAfterAuthority (u : LStr) : LStr :=
  (u.drop ((takeUntilChar ':' u).length + 3)).dropWhile
    (fun c => !(c == '/') && !(c == '?') && !(c == '#'))

def urlPathname (u : LStr) : LStr :=
  let tail := urlAfterAuthority u
  let path := tail.takeWhile (fun c => !(c == '?') && !(c == '#'))
  if path = [] then ['/'] else path

def urlSearch (u : LStr) : LStr :=
  let tail := (urlAfterAuthority u).dropWhile (fun c => !(c == '?') && !(c == '#'))
  match tail with
  | '?' :: _ => tail.takeWhile (fun c => !(c == '#'))
  | _ => []

/-- Authority part including the `scheme://` prefix. -/
def urlOrigin (u : LStr) : LStr :=
  u.take (u.length - (urlAfterAuthority u).length)

/-- Directory part of a pathname (up to and including the last slash). -/
def pathDirPart (p : LStr) : LStr :=
  match lastIndexOfChar '/' p with
  | some i => p.take (i + 1)
  | none => ['/']

/-- String-level model of `new URL(loc, base).toString()` for the
resolution cases the source exercises: absolute locations are taken
verbatim, protocol-relative ones get the scheme of the base, root
relative ones the origin of the base, and other relative ones are merged
onto the directory of the base pathname. -/
def urlResolve (loc base : LStr) : LStr :=
  if hasScheme loc then loc
  else
    match loc with
    | '/' :: '/' :: _ => schemeOf base ++ loc
    | '/' :: _ => urlOrigin base ++ loc
    | _ => urlOrigin base ++ pathDirPart (urlPathname base) ++ loc

/-- One HTTP exchange as the source observes it. -/
structure HttpResponse where
  statusCode : Nat
  location : Option LStr
  contentLength : Option LStr
  contentType : Option LStr
  body : List (List Nat)
deriving DecidableEq

/-- What the network does for a request to a given URL. -/
inductive NetEvent where
  | response (r : HttpResponse)
  | transportError (msg : LStr)
  | timeout
deriving DecidableEq

abbrev Net := LStr → NetEvent

/-- Error thrown out of `fetchRemoteBuffer`: the Error message plus the
size attached to the declared-length `too_large` error. -/
structure FetchErr where
  msg : LStr
  size : Option Nat
deriving DecidableEq

structure FetchOk where
  buffer : List Nat
  contentType : Option LStr
deriving DecidableEq

/-- Is the status one of the five redirect codes the source follows? -/
def isRedirectStatus (s : Nat) : Bool :=
  s == 301 || s == 302 || s == 303 || s == 307 || s == 308

/-- The parsed Content-Length guard value (source line 175): the header
must be truthy (present and nonempty) and parse to a finite number. -/
def clParsed (r : HttpResponse) : Option Int :=
  match r.contentLength with
  | some h => if h = [] then none else jsParseInt h
  | none => none

/-- The body streaming loop (source lines 183-194): accumulate chunks,
destroying the request with `too_large_stream` as soon as the running
total passes `maxBytes`; the offending chunk is not retained. -/
def streamBody (maxBytes : Nat) : List (List Nat) → Nat → Except FetchErr (List Nat)
  | [], _ => .ok []
  | c :: rest, total =>
    if total + c.length > maxBytes then .error ⟨"too_large_stream".toList, none⟩
    else
      match streamBody maxBytes rest (total + c.length) with
      | .ok tailBytes => .ok (c ++ tailBytes)
      | .error e => .error e

/-- The chunks actually buffered when the stream guard fires (or the
whole body when it does not): every chunk accepted before the running
total first passes `maxBytes`. -/
def retainedChunks (maxBytes : Nat) : List (List Nat) → Nat → List (List Nat)
  | [], _ => []
  | c :: rest, total =>
    if total + c.length > maxBytes then []
    else c :: retainedChunks maxBytes rest (total + c.length)

/-- `doFetch` of the source (lines 137-201): visited-set check, redirect
following with a decrementing budget, status check, declared-length
guard, then streaming.  Recursion is on the redirect budget. -/
def doFetch (net : Net) (maxBytes : Nat) :
    List LStr → LStr → Nat → Except FetchErr FetchOk
  | visited, currentUrl, redirectsLeft =>
    if currentUrl ∈ visited then .error ⟨"redirect_loop".toList, none⟩
    else
      match net currentUrl with
      | .timeout => .error ⟨"timeout".toList, none⟩
      | .transportError m => .error ⟨m, none⟩
      | .response r =>
        if isRedirectStatus r.statusCode then
          match r.location with
          | none => .error ⟨"redirect_without_location".toList, none⟩
          | some loc =>
            match redirectsLeft with
            | 0 => .error ⟨"too_many_redirects".toList, none⟩
            | n + 1 =>
              doFetch net maxBytes (currentUrl :: visited) (urlResolve loc currentUrl) n
        else if r.statusCode < 200 ∨ 300 ≤ r.statusCode then
          .error ⟨"http_".toList ++ natToLStr r.statusCode, none⟩
        else
          let streamed : Except FetchErr FetchOk :=
            match streamBody maxBytes r.body 0 with
            | .ok buf => .ok ⟨buf, match r.contentType with
                | some t => if t = [] then none else some t
                | none => none⟩
            | .error e => .error e
          match clParsed r with
          | some cl =>
            if cl > (maxBytes : Int) then .error ⟨"too_large".toList, some cl.toNat⟩
            else streamed
          | none => streamed

/-- `fetchRemoteBuffer` of the source; the source calls it with the
default redirect budget of five. -/
def fetchRemoteBuffer (net : Net) (u : LStr) (maxBytes : Nat) (maxRedirects : Nat) :
    Except FetchErr FetchOk :=
  doFetch net maxBytes [] u maxRedirects

/-- The reason map of `toDataUrlRemote` (source lines 212-222). -/
def remoteReason (msg : LStr) : LStr :=
  if msg = "timeout".toList then "remote_timeout".toList
  else if msg = "redirect_loop".toList then "remote_redirect_loop".toList
  else if msg = "redirect_without_location".toList then "remote_redirect_no_location".toList
  else if msg = "too_many_redirects".toList then "remote_too_many_redirects".toList
  else if msg = "too_large".toList then "too_large".toList
  else if msg = "too_large_stream".toList then "too_large".toList
  else if "http_".toList.isPrefixOf msg then "remote_http_error".toList
  else "remote_error".toList

/-- `toDataUrlRemote` of the source (lines 206-227). -/
def toDataUrlRemote (net : Net) (remoteUrl : LStr) (maxBytes : Nat) : Outcome :=
  let normalized := normalizeRemoteUrl remoteUrl
  match fetchRemoteBuffer net normalized maxBytes 5 with
  | .ok o =>
    .ok (bufferToDataUrl o.buffer (some ((posixExtname (urlPathname normalized)).drop 1))
      o.contentType)
  | .error e =>
    .fail (remoteReason e.msg)
      (match e.size with
       | some n => if n = 0 then none else some n   -- the truthiness test on e.size
       | none => none)
      none

/-! ### Orchestration state (remote cache, warn-once sink, counters) -/

/-- The collaborators of one engine invocation. -/
structure World where
  fs : FS
  net : Net
  baseDir : LStr
  maxBytes : Nat

/-- Run-scoped mutable state of the source: the remote cache map, the
warn-once key set and emitted lines, and the two counters.  `fetchLog`
instruments the network transfers actually started (one entry per
`toDataUrlRemote` call). -/
structure RunState where
  cache : List (LStr × Outcome)
  seenWarn : List LStr
  warnLog : List LStr
  fetchLog : List LStr
  replacedCount : Nat
  srcsetCount : Nat
deriving DecidableEq

def initState : RunState := ⟨[], [], [], [], 0, 0⟩

/-- JavaScript Map.get on the association list model. -/
def cacheGet (cache : List (LStr × Outcome)) (key : LStr) : Option Outcome :=
  match cache with
  | [] => none
  | (k, v) :: rest => if k = key then some v else cacheGet rest key

/-- The human-readable reason text table of `warnOnce` (source lines
254-265); unknown reasons fall back to the reason itself. -/
def warnReasonText (reason : LStr) (size : Option Nat) (errMsg : Option LStr) : LStr :=
  if reason = "not_found".toList then "File not found".toList
  else if reason = "not_file".toList then "Not a file".toList
  else if reason = "too_large".toList then
    "File too large".toList ++
      (match size with
       | some n => if n ≠ 0 then " (".toList ++ natToLStr n ++ " bytes)".toList else []
       | none => [])
  else if reason = "read_error".toList then
    "Read error: ".toList ++
      (match errMsg with
       | some m => if m = [] then "unknown".toList else m   -- the || "unknown" fallback
       | none => "unknown".toList)
  else if reason = "remote_timeout".toList then "Remote timeout".toList
  else if reason = "remote_redirect_loop".toList then "Remote redirect loop".toList
  else if reason = "remote_redirect_no_location".toList then
    "Remote redirect without Location".toList
  else if reason = "remote_too_many_redirects".toList then "Too many redirects".toList
  else if reason = "remote_http_error".toList then "Remote HTTP error".toList
  else if reason = "remote_error".toList then "Remote fetch error".toList
  else reason

/-- `warnOnce` of the source: emit one line for the first occurrence of a
key, drop later ones. -/
def warnOnce (st : RunState) (key : LStr) (reason : LStr) (size : Option Nat)
    (errMsg : Option LStr) : RunState :=
  if key ∈ st.seenWarn then st
  else
    { st with
      seenWarn := key :: st.seenWarn
      warnLog := st.warnLog ++
        ["[warn] ".toList ++ key ++ " → ".toList ++ warnReasonText reason size errMsg] }

/-- The get-or-start-and-set cache access both call sites perform
(source lines 288-290 and 316-318).  On a miss the fetch is started —
recorded in `fetchLog` — and its outcome stored; on a hit the stored
outcome is returned and no transfer happens. -/
def resolveRemoteCached (w : World) (st : RunState) (url : LStr) : Outcome × RunState :=
  match cacheGet st.cache url with
  | some o => (o, st)
  | none =>
    let o := toDataUrlRemote w.net url w.maxBytes
    (o, { st with cache := (url, o) :: st.cache, fetchLog := url :: st.fetchLog })

/-! ### srcset handling (source lines 272-307) -/

/-- The item regex `/^(\S+)(\s+\S+)?$/`: URL part and trimmed descriptor
(empty when absent); `none` when the item has more than two runs. -/
def parseSrcsetItem (part : LStr) : Option (LStr × LStr) :=
  let url := part.takeWhile (fun c => !jsSpace c)
  let rest := part.drop url.length
  if url = [] then none
  else
    match rest with
    | [] => some (url, [])
    | _ =>
      let ws := rest.takeWhile jsSpace
      let d := rest.drop ws.length
      if ws = [] then none
      else if d ≠ [] ∧ d.all (fun c => !jsSpace c) then some (url, jsTrim rest)
      else none

/-- The comma-split, trimmed, Boolean-filtered item list of
`transformSrcsetValue`. -/
def parseParts (s : LStr) : List LStr :=
  ((splitChar ',' s).map jsTrim).filter (· ≠ [])

/-- The body of the item loop of `transformSrcsetValue` for one item. -/
def srcsetItemStep (w : World) (st : RunState) (part : LStr) : LStr × RunState :=
  match parseSrcsetItem part with
  | none => (part, st)
  | some (urlPart, descriptor) =>
    if isDataUrl urlPart then (part, st)
    else if isRemote urlPart then
      match resolveRemoteCached w st urlPart with
      | (.ok d, st1) => (if descriptor ≠ [] then d ++ ' ' :: descriptor else d, st1)
      | (.fail reason size errMsg, st1) =>
        (part, warnOnce st1 ("srcset:".toList ++ urlPart) reason size errMsg)
    else
      let resolved := resolveLocalPath w.fs urlPart w.baseDir
      match toDataUrlLocal w.fs resolved w.maxBytes with
      | .ok d => (if descriptor ≠ [] then d ++ ' ' :: descriptor else d, st)
      | .fail reason size errMsg =>
        (part, warnOnce st ("srcset:".toList ++ urlPart) reason size errMsg)

/-- The item loop of `transformSrcsetValue`, left to right. -/
def srcsetLoop (w : World) : List LStr → RunState → List LStr × RunState
  | [], st => ([], st)
  | p :: ps, st =>
    let (o, st1) := srcsetItemStep w st p
    let (os, st2) := srcsetLoop w ps st1
    (o :: os, st2)

/-- `transformSrcsetValue` of the source (lines 272-307). -/
def transformSrcsetValue (w : World) (st : RunState) (srcset : LStr) : LStr × RunState :=
  let (outs, st1) := srcsetLoop w (parseParts srcset) st
  (joinSep ", ".toList outs, st1)

/-! ### Attribute regex (source lines 229-243) -/

/-- The value alternatives of the attribute regex
`("([^"]*)"|'([^']*)'|([^\s"'=<>` + backtick + `]+))`. -/
inductive AttrVal where
  | dq (inner : LStr)
  | sq (inner : LStr)
  | bare (tok : LStr)
deriving DecidableEq

/-- Characters allowed in an unquoted attribute value. -/
def isBareChar (c : Char) : Bool :=
  !jsSpace c && !(c == '"') && !(c == '\'') && !(c == '=') && !(c == '<') &&
    !(c == '>') && !(c == '`')

/-- Case-insensitive literal match returning the original characters. -/
def ciTakeLit : LStr → LStr → Option (LStr × LStr)
  | [], s => some ([], s)
  | _ :: _, [] => none
  | p :: ps, c :: cs =>
    if lowc c == lowc p then
      match ciTakeLit ps cs with
      | some (m, rest) => some (c :: m, rest)
      | none => none
    else none

/-- Try the attribute regex at the current position: the attribute name
(case-insensitive), `\s*=\s*`, then one of the three value forms.
Returns the matched text and the parsed value together with the rest. -/
def matchAttrAt (attr : LStr) (s : LStr) : Option (LStr × AttrVal × LStr) :=
  match ciTakeLit attr s with
  | none => none
  | some (nameText, r1) =>
    let ws1 := r1.takeWhile jsSpace
    let r2 := r1.drop ws1.length
    match r2 with
    | '=' :: r3 =>
      let ws2 := r3.takeWhile jsSpace
      let r4 := r3.drop ws2.length
      match r4 with
      | '"' :: r5 =>
        match splitAtChar '"' r5 with
        | some (inner, after) =>
          some (nameText ++ ws1 ++ '=' :: ws2 ++ '"' :: inner ++ ['"'], .dq inner, after)
        | none => none
      | '\'' :: r5 =>
        match splitAtChar '\'' r5 with
        | some (inner, after) =>
          some (nameText ++ ws1 ++ '=' :: ws2 ++ '\'' :: inner ++ ['\''], .sq inner, after)
        | none => none
      | _ =>
        let tok := r4.takeWhile isBareChar
        if tok = [] then none
        else some (nameText ++ ws1 ++ '=' :: ws2 ++ tok, .bare tok, r4.drop tok.length)
    | _ => none

/-- Scan for the first position where the attribute regex matches, with
the word boundary before the attribute name (the previous character, when
there is one, is not a word character). -/
def findAttrGo (attr : LStr) : Option Char → LStr → Option (LStr × LStr × AttrVal × LStr)
  | prev, s =>
    let boundary :=
      match prev with
      | none => true
      | some c => !isWordChar c
    match (if boundary then matchAttrAt attr s else none) with
    | some (m, v, post) => some ([], m, v, post)
    | none =>
      match s with
      | [] => none
      | c :: cs =>
        match findAttrGo attr (some c) cs with
        | some (pre, m, v, post) => some (c :: pre, m, v, post)
        | none => none

def findAttr (attr : LStr) (s : LStr) : Option (LStr × LStr × AttrVal × LStr) :=
  findAttrGo attr none s

/-- `getAttrFromTag` of the source: the inner group of whichever value
alternative matched. -/
def getAttrFromTag (tag : LStr) (attr : LStr) : Option LStr :=
  match findAttr attr tag with
  | some (_, _, .dq inner, _) => some inner
  | some (_, _, .sq inner, _) => some inner
  | some (_, _, .bare tok, _) => some tok
  | none => none

/-- The inner replace of the match callback: the first `=` of the string,
the whitespace after it and up to two immediately following quote
characters are rewritten to `=<ws><quote><newValue><quote>` (the lazy
regex `/=(\s*)(["'])?[^"']*?(["'])?/` matches nothing more). -/
def eqReplace (s : LStr) (quote : Char) (newValue : LStr) : LStr :=
  match splitAtChar '=' s with
  | none => s
  | some (before, after) =>
    let ws := after.takeWhile jsSpace
    let rest := after.drop ws.length
    let rest1 :=
      match rest with
      | c :: t => if c == '"' || c == '\'' then t else rest
      | [] => rest
    let rest2 :=
      match rest, rest1 with
      | c :: _, d :: t =>
        if (c == '"' || c == '\'') && (d == '"' || d == '\'') then t else rest1
      | _, _ => rest1
    before ++ '=' :: ws ++ quote :: newValue ++ quote :: rest2

/-- `replaceAttrInTag` of the source (lines 229-236).  The
`originalValue` argument is kept for fidelity with the source signature;
whenever the regex matches, one of the three groups is defined, so the
`?? originalValue` fallback never fires. -/
def replaceAttrInTag (tag : LStr) (attr : LStr) (newValue : LStr)
    (originalValue : LStr) : LStr :=
  match findAttr attr tag with
  | none => tag
  | some (pre, m, v, post) =>
    let old : LStr :=
      match v with
      | .dq inner => inner
      | .sq inner => inner
      | .bare tok => tok
    let _ := originalValue
    let quote : Char := if m.contains '"' then '"' else if m.contains '\'' then '\'' else '"'
    let step1 := replaceFirstSub old newValue m
    let step2 := eqReplace step1 quote newValue
    pre ++ step2 ++ post

/-! ### Tag transformation and document pass (source lines 309-366) -/

/-- The `src=` handling of `transformImgTag` (lines 312-335). -/
def processSrcPart (w : World) (st : RunState) (tag : LStr) : LStr × RunState :=
  match getAttrFromTag tag "src".toList with
  | none => (tag, st)
  | some src =>
    if src = [] then (tag, st)
    else if isDataUrl src then (tag, st)
    else if isRemote src then
      match resolveRemoteCached w st src with
      | (.ok d, st1) =>
        (replaceAttrInTag tag "src".toList d src,
         { st1 with replacedCount := st1.replacedCount + 1 })
      | (.fail reason size errMsg, st1) =>
        (tag, warnOnce st1 ("src:".toList ++ src) reason size errMsg)
    else
      let resolved := resolveLocalPath w.fs src w.baseDir
      match toDataUrlLocal w.fs resolved w.maxBytes with
      | .ok d =>
        (replaceAttrInTag tag "src".toList d src,
         { st with replacedCount := st.replacedCount + 1 })
      | .fail reason size errMsg =>
        (tag, warnOnce st ("src:".toList ++ src) reason size errMsg)

/-- `transformImgTag` of the source (lines 309-348).  The srcset is read
from the original tag text, the replacement is applied to the possibly
already-changed tag. -/
def transformImgTag (w : World) (st : RunState) (tag : LStr) : LStr × RunState :=
  let (changed, st1) := processSrcPart w st tag
  match getAttrFromTag tag "srcset".toList with
  | none => (changed, st1)
  | some srcset =>
    if srcset = [] then (changed, st1)
    else
      let (newVal, st2) := transformSrcsetValue w st1 srcset
      if newVal ≠ srcset then
        (replaceAttrInTag changed "srcset".toList newVal srcset,
         { st2 with srcsetCount := st2.srcsetCount + 1 })
      else (changed, st2)

/-- A document piece: literal text between matches, or one `<img ...>`
tag match of `/<img\b[^>]*>/gi`. -/
inductive Seg where
  | text (s : LStr)
  | tag (s : LStr)
deriving DecidableEq

/-- Try the img-tag regex at the current position: `<img`
case-insensitively, a word boundary, then everything up to the first `>`. -/
def matchImgAt (s : LStr) : Option (LStr × LStr) :=
  match s with
  | a :: b :: c :: d :: rest =>
    if a == '<' && lowc b == 'i' && lowc c == 'm' && lowc d == 'g' &&
        (match rest with
         | [] => true
         | e :: _ => !isWordChar e) then
      match splitAtChar '>' rest with
      | some (inside, after) => some (a :: b :: c :: d :: inside ++ ['>'], after)
      | none => none
    else none
  | _ => none

/-- First img-tag match: text before it, the match, the rest. -/
def findImgTag : LStr → Option (LStr × LStr × LStr)
  | [] => none
  | c :: cs =>
    match matchImgAt (c :: cs) with
    | some (tag, rest) => some ([], tag, rest)
    | none =>
      match findImgTag cs with
      | some (pre, tag, rest) => some (c :: pre, tag, rest)
      | none => none

/-- Successive non-overlapping img-tag matches, fuelled by the input
length (each match consumes at least one character). -/
def scanImgGo : Nat → LStr → List Seg
  | 0, s => [.text s]
  | fuel + 1, s =>
    match findImgTag s with
    | none => [.text s]
    | some (pre, tag, rest) => .text pre :: .tag tag :: scanImgGo fuel rest

/-- The `[...html.matchAll(/<img\b[^>]*>/gi)]` decomposition of the
document into literal text and img tags. -/
def scanImg (html : LStr) : List Seg := scanImgGo (html.length + 1) html

/-- The splice-and-transform loop of `processHtml` (lines 355-364):
literal text is copied, each tag match is transformed in order. -/
def renderSegs (w : World) : List Seg → RunState → LStr × RunState
  | [], st => ([], st)
  | .text t :: rest, st =>
    let (o, st1) := renderSegs w rest st
    (t ++ o, st1)
  | .tag t :: rest, st =>
    let (t1, st1) := transformImgTag w st t
    let (o, st2) := renderSegs w rest st1
    (t1 ++ o, st2)

/-- `processHtml` of the source (lines 350-366). -/
def processHtml (w : World) (st : RunState) (html : LStr) : LStr × RunState :=
  renderSegs w (scanImg html) st

/-! ### Derived predicates and spec-side comparison definitions -/

/-- Concatenation of the document pieces back into text. -/
def joinSegs : List Seg → LStr
  | [] => []
  | .text t :: rest => t ++ joinSegs rest
  | .tag t :: rest => t ++ joinSegs rest

/-- Every reference of the tag is already a data: reference: the src
value, when present, and the URL part of every srcset item. -/
def tagFullyInlined (tag : LStr) : Bool :=
  (match getAttrFromTag tag "src".toList with
   | none => true
   | some s => isDataUrl s) &&
  (match getAttrFromTag tag "srcset".toList with
   | none => true
   | some s =>
     (parseParts s).all fun p =>
       match parseSrcsetItem p with
       | some (u, _) => isDataUrl u
       | none => false)

/-- The srcset value, when present, is already in the engine's
normal form: its trimmed nonempty items rejoined with a comma and one
space. -/
def tagSrcsetNormalized (tag : LStr) : Bool :=
  match getAttrFromTag tag "srcset".toList with
  | none => true
  | some s => s == joinSep ", ".toList (parseParts s)

/-- Document-level version of `tagFullyInlined` over the scanned pieces. -/
def docFullyInlined (html : LStr) : Bool :=
  (scanImg html).all fun seg =>
    match seg with
    | .text _ => true
    | .tag t => tagFullyInlined t

/-- Document-level version of `tagSrcsetNormalized`. -/
def docSrcsetNormalized (html : LStr) : Bool :=
  (scanImg html).all fun seg =>
    match seg with
    | .text _ => true
    | .tag t => tagSrcsetNormalized t

/-- Stated from the spec, for comparison with the source resolver: walk
the segments from the base directory, at each segment choosing the
directory entry that matches case-insensitively and falling back to the
verbatim segment. -/
def specCaseInsensitiveWalk (fs : FS) : LStr → List LStr → LStr
  | cur, [] => cur
  | cur, seg :: rest =>
    let pick := ((fs.readdir cur).find? (fun e => lowerL e == lowerL seg)).getD seg
    specCaseInsensitiveWalk fs (posixJoin cur pick) rest

/-- Plain path segment: nonempty, not a dot segment, and made of
characters that the decoding, query-stripping and normalization steps
leave untouched. -/
def plainSegChar (c : Char) : Bool :=
  ('a' ≤ c && c ≤ 'z') || ('A' ≤ c && c ≤ 'Z') || ('0' ≤ c && c ≤ '9') ||
    c == '.' || c == '-' || c == '_'

def plainSeg (s : LStr) : Bool :=
  s ≠ [] && s ≠ ['.'] && s ≠ ['.', '.'] && s.all plainSegChar

/-- Stated from the spec (claim C6): the extension hint is the substring
after the last dot, or the whole input when it has no dot. -/
def specAfterLastDot (f : LStr) : LStr :=
  match lastIndexOfChar '.' f with
  | some i => f.drop (i + 1)
  | none => f

/-- The extension string the source actually derives from the fallback
hint before the table lookup. -/
def mimeExtHint (f : LStr) : LStr :=
  lowerL (if f.contains '.' then (posixExtname f).drop 1 else f)

/-- Total size of a chunk list. -/
def chunksTotal (chunks : List (List Nat)) : Nat := (chunks.map List.length).sum

/-- Every completed cache entry holds exactly the outcome of the one
fetch of its URL: all requesters of a URL observe this same outcome. -/
def cacheConsistent (w : World) (st : RunState) : Prop :=
  ∀ u o, (u, o) ∈ st.cache → o = toDataUrlRemote w.net u w.maxBytes

/-- The transfer log holds each URL at most once, and exactly the URLs
with a cache entry: one transfer per distinct raw reference text. -/
def fetchLogMatchesCache (st : RunState) : Prop :=
  st.fetchLog.Nodup ∧ ∀ u, u ∈ st.fetchLog ↔ ∃ o, (u, o) ∈ st.cache

def engineInv (w : World) (st : RunState) : Prop :=
  cacheConsistent w st ∧ fetchLogMatchesCache st

/-! ### Concrete worlds used by witnesses and counterexamples -/

def fsEmpty : FS :=
  ⟨fun _ => false, fun _ => false, fun _ => false, fun _ => 0, fun _ => [],
   fun _ => Except.error "ENOENT".toList⟩

def netNone : Net := fun _ => NetEvent.transportError "ECONNREFUSED".toList

def wTriv : World := ⟨fsEmpty, netNone, "/b".toList, 100⟩

/-- Filesystem of the srcset partial-failure example: `a.png` holds one
byte, `missing.png` does not exist. -/
def fsC3 : FS :=
  ⟨fun p => p = "/b".toList ∨ p = "/b/a.png".toList,
   fun p => p = "/b/a.png".toList,
   fun p => p = "/b".toList,
   fun p => if p = "/b/a.png".toList then 1 else 0,
   fun p => if p = "/b".toList then ["a.png".toList] else [],
   fun p => if p = "/b/a.png".toList then Except.ok [1] else Except.error "ENOENT".toList⟩

def wC3 : World := ⟨fsC3, netNone, "/b".toList, 100⟩

/-- Filesystem of the case-insensitive fallback example: the tree holds
`images/Logo.PNG` and nothing matching `images/logo.png` exactly. -/
def fsC8 : FS :=
  ⟨fun p => p = "/b".toList ∨ p = "/b/images".toList ∨ p = "/b/images/Logo.PNG".toList,
   fun p => p = "/b/images/Logo.PNG".toList,
   fun p => p = "/b".toList ∨ p = "/b/images".toList,
   fun p => if p = "/b/images/Logo.PNG".toList then 4 else 0,
   fun p => if p = "/b".toList then ["images".toList]
     else if p = "/b/images".toList then ["Logo.PNG".toList] else [],
   fun p => if p = "/b/images/Logo.PNG".toList then Except.ok [137, 80, 78, 71]
     else Except.error "ENOENT".toList⟩

/-- Filesystem of the size-boundary example: one regular file of five
bytes. -/
def fsC7 : FS :=
  ⟨fun p => p = "/b/f.png".toList,
   fun p => p = "/b/f.png".toList,
   fun _ => false,
   fun p => if p = "/b/f.png".toList then 5 else 0,
   fun _ => [],
   fun p => if p = "/b/f.png".toList then Except.ok [1, 2, 3, 4, 5]
     else Except.error "ENOENT".toList⟩

/-- A URL that redirects to itself. -/
def netLoop : Net := fun u =>
  if u = "http://a/".toList then
    NetEvent.response ⟨301, some "http://a/".toList, none, none, []⟩
  else NetEvent.transportError "ECONNREFUSED".toList

/-- A two-URL redirect cycle. -/
def netCycle : Net := fun u =>
  if u = "http://a/".toList then
    NetEvent.response ⟨302, some "http://b/".toList, none, none, []⟩
  else if u = "http://b/".toList then
    NetEvent.response ⟨302, some "http://a/".toList, none, none, []⟩
  else NetEvent.transportError "ECONNREFUSED".toList

/-- A response whose declared Content-Length exceeds any small budget. -/
def netCL : Net := fun _ =>
  NetEvent.response ⟨200, none, some "101".toList, some "image/png".toList, [[1], [2]]⟩

/-- A response without Content-Length whose streamed body blows the
budget on its second chunk. -/
def netStream : Net := fun _ =>
  NetEvent.response ⟨200, none, none, none, [[1, 2, 3], List.replicate 99 7]⟩

/-- A one-byte remote image used by the coalescing witness. -/
def netC2 : Net := fun u =>
  if u = "http://r/i.png".toList then
    NetEvent.response ⟨200, none, some "1".toList, some "image/png".toList, [[9]]⟩
  else NetEvent.transportError "ECONNREFUSED".toList

def wC2 : World := ⟨fsEmpty, netC2, "/b".toList, 100⟩

def docC2 : LStr := "<img src=\"http://r/i.png\"><p><img src=\"http://r/i.png\"></p>".toList

def docC1 : LStr := "<img srcset=\"data:x,data:y\">".toList

def docC1n : LStr := "<img src=\"data:image/png;base64,AQ==\" srcset=\"data:x 1x, data:y\">".toList

def docC10 : LStr := "<img srcset=\"data:a,data:b\">".toList

/-! ## Helper lemmas -/

theorem splitAtChar_eq (ch : Char) :
    ∀ s a b, splitAtChar ch s = some (a, b) → s = a ++ ch :: b
  | [], a, b => by simp [splitAtChar]
  | c :: cs, a, b => by
    simp only [splitAtChar]
    by_cases hc : c == ch
    · rw [if_pos hc]
      intro h
      rw [Option.some.injEq, Prod.mk.injEq] at h
      obtain ⟨h1, h2⟩ := h
      subst h1; subst h2
      simp [eq_of_beq hc]
    · rw [if_neg hc]
      cases hrec : splitAtChar ch cs with
      | none => simp
      | some p =>
        obtain ⟨a1, b1⟩ := p
        intro h
        rw [Option.some.injEq, Prod.mk.injEq] at h
        obtain ⟨h1, h2⟩ := h
        subst h1; subst h2
        have := splitAtChar_eq ch cs a1 b1 hrec
        simp [this]

theorem matchImgAt_eq (s tag rest : LStr) (h : matchImgAt s = some (tag, rest)) :
    s = tag ++ rest ∧ tag ≠ [] := by
  unfold matchImgAt at h
  split at h
  · next a b c d r =>
    split at h
    · next hcond =>
      cases hsplit : splitAtChar '>' r with
      | none => rw [hsplit] at h; exact absurd h (by simp)
      | some p =>
        obtain ⟨inside, after⟩ := p
        rw [hsplit] at h
        rw [Option.some.injEq, Prod.mk.injEq] at h
        obtain ⟨h1, h2⟩ := h
        subst h1; subst h2
        have := splitAtChar_eq '>' r inside after hsplit
        constructor
        · simp [this]
        · simp
    · exact absurd h (by simp)
  · exact absurd h (by simp)

theorem findImgTag_eq :
    ∀ s pre tag rest, findImgTag s = some (pre, tag, rest) →
      s = pre ++ tag ++ rest ∧ tag ≠ []
  | [], pre, tag, rest => by simp [findImgTag]
  | c :: cs, pre, tag, rest => by
    simp only [findImgTag]
    cases hm : matchImgAt (c :: cs) with
    | some p =>
      obtain ⟨t0, r0⟩ := p
      intro h
      rw [Option.some.injEq, Prod.mk.injEq, Prod.mk.injEq] at h
      obtain ⟨h1, h2, h3⟩ := h
      subst h1; subst h2; subst h3
      have := matchImgAt_eq (c :: cs) t0 r0 hm
      simpa using this
    | none =>
      cases hrec : findImgTag cs with
      | none => simp
      | some q =>
        obtain ⟨p1, t1, r1⟩ := q
        intro h
        rw [Option.some.injEq, Prod.mk.injEq, Prod.mk.injEq] at h
        obtain ⟨h1, h2, h3⟩ := h
        subst h1; subst h2; subst h3
        have := findImgTag_eq cs p1 t1 r1 hrec
        exact ⟨by simp [this.1], this.2⟩

theorem scanImgGo_join : ∀ fuel s, joinSegs (scanImgGo fuel s) = s := by
  intro fuel
  induction fuel with
  | zero => intro s; simp [scanImgGo, joinSegs]
  | succ n ih =>
    intro s
    simp only [scanImgGo]
    cases hf : findImgTag s with
    | none => simp [joinSegs]
    | some p =>
      obtain ⟨pre, tag, rest⟩ := p
      have := findImgTag_eq s pre tag rest hf
      simp only [joinSegs, ih]
      rw [this.1]
      simp

theorem scanImg_join (html : LStr) : joinSegs (scanImg html) = html :=
  scanImgGo_join (html.length + 1) html

/-! ## Claim C7: local size boundary -/

/-- C7: for every regular file and ceiling maxBytes, a local load of a
file whose size is exactly maxBytes succeeds with the full byte payload,
while any size exceeding maxBytes fails too_large carrying the actual
size.  The failure branch holds for every possible readFile behaviour of
the filesystem, which is the formal content of "the size check happens
before any read is attempted". -/
theorem c7_local_size_boundary :
    ∀ (fs : FS) (p : LStr) (maxBytes : Nat),
      fs.existsAt p = true → fs.statIsFile p = true →
      ((∀ buf, fs.statSize p = maxBytes → fs.readFile p = .ok buf →
          toDataUrlLocal fs p maxBytes = .ok (bufferToDataUrl buf (some p) none)) ∧
       (fs.statSize p > maxBytes →
          toDataUrlLocal fs p maxBytes =
            .fail "too_large".toList (some (fs.statSize p)) none)) := by
  intro fs p maxBytes hex hfile
  constructor
  · intro buf hsize hread
    simp [toDataUrlLocal, hex, hfile, hsize, hread]
  · intro hbig
    simp [toDataUrlLocal, hex, hfile, hbig]

theorem c7_local_size_boundary_witness :
    toDataUrlLocal fsC7 "/b/f.png".toList 5 =
      .ok (bufferToDataUrl [1, 2, 3, 4, 5] (some "/b/f.png".toList) none) ∧
    toDataUrlLocal fsC7 "/b/f.png".toList 4 =
      .fail "too_large".toList (some 5) none :=
  ⟨(c7_local_size_boundary fsC7 "/b/f.png".toList 5 (by decide) (by decide)).1
      [1, 2, 3, 4, 5] (by decide) (by decide),
   (c7_local_size_boundary fsC7 "/b/f.png".toList 4 (by decide) (by decide)).2
      (by decide)⟩

/-! ## Claim C5: redirect loops -/

/-- C5: within one fetch call a visited-URL set spans the whole redirect
chain; invoking the fetch step on any URL already in the visited set
fails with the redirect_loop error no matter how much numeric budget
remains, and a self-redirect or a redirect cycle surfaces as the
remote_redirect_loop failure of the engine.  Termination is structural in
the model (the redirect budget strictly decreases), so no fetch loops
forever. -/
theorem c5_redirect_loop :
    (∀ (net : Net) (maxBytes : Nat) (visited : List LStr) (u : LStr) (n : Nat),
       u ∈ visited →
       doFetch net maxBytes visited u n = .error ⟨"redirect_loop".toList, none⟩) ∧
    toDataUrlRemote netLoop "http://a/".toList 100 =
      .fail "remote_redirect_loop".toList none none ∧
    toDataUrlRemote netCycle "http://a/".toList 100 =
      .fail "remote_redirect_loop".toList none none := by
  refine ⟨?_, by decide, by decide⟩
  intro net maxBytes visited u n hmem
  unfold doFetch
  rw [if_pos hmem]

theorem c5_redirect_loop_witness :
    doFetch netNone 7 ["u".toList] "u".toList 3 =
      .error ⟨"redirect_loop".toList, none⟩ :=
  c5_redirect_loop.1 netNone 7 ["u".toList] "u".toList 3 (by decide)

/-! ## Claim C4: remote size ceiling -/

theorem streamBody_overflow (maxBytes : Nat) :
    ∀ (chunks : List (List Nat)) (total : Nat),
      total ≤ maxBytes → maxBytes < total + chunksTotal chunks →
      streamBody maxBytes chunks total = .error ⟨"too_large_stream".toList, none⟩ := by
  intro chunks
  induction chunks with
  | nil => intro total hle hlt; simp [chunksTotal] at hlt; omega
  | cons c rest ih =>
    intro total hle hlt
    simp only [streamBody]
    by_cases hover : total + c.length > maxBytes
    · rw [if_pos hover]
    · rw [if_neg hover]
      have h1 : total + c.length ≤ maxBytes := by omega
      have h2 : maxBytes < total + c.length + chunksTotal rest := by
        simp only [chunksTotal, List.map_cons, List.sum_cons] at hlt ⊢
        omega
      rw [ih (total + c.length) h1 h2]

theorem retainedChunks_bound (maxBytes : Nat) :
    ∀ (chunks : List (List Nat)) (total : Nat),
      total ≤ maxBytes →
      total + chunksTotal (retainedChunks maxBytes chunks total) ≤ maxBytes := by
  intro chunks
  induction chunks with
  | nil => intro total hle; simpa [retainedChunks, chunksTotal] using hle
  | cons c rest ih =>
    intro total hle
    simp only [retainedChunks]
    by_cases hover : total + c.length > maxBytes
    · rw [if_pos hover]; simpa [chunksTotal] using hle
    · rw [if_neg hover]
      have h1 : total ≤ maxBytes := hle
      have := ih (total + c.length) (by omega)
      simp only [chunksTotal, List.map_cons, List.sum_cons] at this ⊢
      omega

/-- C4: a remote fetch whose response declares a Content-Length above the
ceiling fails too_large carrying that length, for every possible body —
the body is never consulted, which is the formal content of "without
reading the body".  Without such a declaration, a body whose total size
exceeds the ceiling fails too_large via the stream guard, and the chunks
retained at the point of detection never sum to more than the ceiling. -/
theorem c4_size_cap :
    (∀ (net : Net) (u : LStr) (maxBytes : Nat) (r : HttpResponse) (v : Int),
       net (normalizeRemoteUrl u) = .response r →
       isRedirectStatus r.statusCode = false →
       200 ≤ r.statusCode → r.statusCode < 300 →
       clParsed r = some v → (maxBytes : Int) < v →
       toDataUrlRemote net u maxBytes =
         .fail "too_large".toList (some v.toNat) none) ∧
    (∀ (net : Net) (u : LStr) (maxBytes : Nat) (r : HttpResponse),
       net (normalizeRemoteUrl u) = .response r →
       isRedirectStatus r.statusCode = false →
       200 ≤ r.statusCode → r.statusCode < 300 →
       (∀ v, clParsed r = some v → v ≤ (maxBytes : Int)) →
       maxBytes < chunksTotal r.body →
       toDataUrlRemote net u maxBytes = .fail "too_large".toList none none) ∧
    (∀ (maxBytes : Nat) (chunks : List (List Nat)),
       chunksTotal (retainedChunks maxBytes chunks 0) ≤ maxBytes) := by
  refine ⟨?_, ?_, ?_⟩
  · intro net u maxBytes r v hnet hred h200 h300 hcl hbig
    have hstatus : ¬(r.statusCode < 200 ∨ 300 ≤ r.statusCode) := by omega
    have hv : v.toNat ≠ 0 := by omega
    simp [toDataUrlRemote, fetchRemoteBuffer, doFetch, hnet, hred, hcl, hstatus, hbig, hv]
    decide
  · intro net u maxBytes r hnet hred h200 h300 hcl hbody
    have hstatus : ¬(r.statusCode < 200 ∨ 300 ≤ r.statusCode) := by omega
    have hstream := streamBody_overflow maxBytes r.body 0 (by omega) (by omega)
    cases hc : clParsed r with
    | none =>
      simp [toDataUrlRemote, fetchRemoteBuffer, doFetch, hnet, hred, hc, hstatus, hstream]
      decide
    | some v =>
      have hle : ¬((maxBytes : Int) < v) := by have := hcl v hc; omega
      simp [toDataUrlRemote, fetchRemoteBuffer, doFetch, hnet, hred, hc, hstatus,
        hstream, hle]
      decide
  · intro maxBytes chunks
    simpa using retainedChunks_bound maxBytes chunks 0 (by omega)

theorem c4_size_cap_witness :
    toDataUrlRemote netCL "http://x/".toList 100 =
      .fail "too_large".toList (some 101) none ∧
    toDataUrlRemote netStream "http://x/".toList 100 =
      .fail "too_large".toList none none ∧
    chunksTotal (retainedChunks 100 [[1, 2, 3], List.replicate 99 7] 0) ≤ 100 :=
  ⟨c4_size_cap.1 netCL "http://x/".toList 100
      ⟨200, none, some "101".toList, some "image/png".toList, [[1], [2]]⟩ 101
      (by decide) (by decide) (by decide) (by decide) (by decide) (by decide),
   c4_size_cap.2.1 netStream "http://x/".toList 100
      ⟨200, none, none, none, [[1, 2, 3], List.replicate 99 7]⟩
      (by decide) (by decide) (by decide) (by decide)
      (by intro v hv; simp [clParsed] at hv) (by decide),
   c4_size_cap.2.2 100 [[1, 2, 3], List.replicate 99 7]⟩

/-! ## Claim C6: MIME classification precedence -/

/-- C6 counterexample: for the fallback hint `.png` the claim's
derivation rule (substring after the last dot) yields the extension
`png`, whose table entry is `image/png`; but the source, which uses the
platform extname rule, classifies the payload as the generic binary
type.  The claim as stated is therefore false at this input. -/
theorem c6_mime_counterexample :
    mimeFor (some ".png".toList) none = "application/octet-stream".toList ∧
    extsToMime (lowerL (specAfterLastDot ".png".toList)) = some "image/png".toList ∧
    "application/octet-stream".toList ≠ "image/png".toList := by
  refine ⟨by decide, by decide, by decide⟩

/-- C6 amended: classification obeys the stated precedence — a declared
content type matching image/<token> case-insensitively is used verbatim
with parameters after the semicolon discarded; otherwise the extension is
derived from the fallback hint by the platform extname rule (the
lowercased substring after the last dot of the hint's final path
component, treated as absent when that dot is the component's first
character, with the whole hint lowercased serving as the extension only
when it contains no dot at all) and looked up in the fixed table;
otherwise the generic binary type results.  The three examples of the
specification are included. -/
theorem c6_mime_precedence_amended :
    ∀ (f h : LStr),
      (ctImageTest h = true →
        ∀ fb, mimeFor fb (some h) = jsTrim (takeUntilChar ';' h)) ∧
      (ctImageTest h = false → mimeFor (some f) (some h) = mimeFor (some f) none) ∧
      (f ≠ [] → ∀ m, extsToMime (mimeExtHint f) = some m → mimeFor (some f) none = m) ∧
      ((f = [] ∨ extsToMime (mimeExtHint f) = none) →
        mimeFor (some f) none = "application/octet-stream".toList) ∧
      mimeFor none none = "application/octet-stream".toList ∧
      mimeFor (some "x.png".toList) (some "image/webp".toList) = "image/webp".toList ∧
      mimeFor (some "/d/x.gif".toList) none = "image/gif".toList ∧
      mimeFor (some "x.xyz".toList) none = "application/octet-stream".toList := by
  intro f h
  refine ⟨?_, ?_, ?_, ?_, by decide, by decide, by decide, by decide⟩
  · intro hct fb
    simp [mimeFor, hct]
  · intro hct
    simp [mimeFor, hct]
  · intro hne m hm
    simp only [mimeExtHint] at hm
    simp at hm
    simp [mimeFor, hne]
    rw [hm]
  · intro hcase
    rcases hcase with hf | hm
    · subst hf; decide
    · by_cases hf : f = []
      · subst hf; decide
      · simp only [mimeExtHint] at hm
        simp at hm
        simp [mimeFor, hf]
        rw [hm]

theorem c6_mime_precedence_witness :
    mimeFor (some "a.png".toList) (some "image/webp; q=0.8".toList) =
      jsTrim (takeUntilChar ';' "image/webp; q=0.8".toList) ∧
    mimeFor (some "a.gif".toList) none = "image/gif".toList :=
  ⟨((c6_mime_precedence_amended "a.png".toList "image/webp; q=0.8".toList).1
      (by decide) (some "a.png".toList)),
   ((c6_mime_precedence_amended "a.gif".toList []).2.2.1
      (by decide) "image/gif".toList (by decide))⟩

/-! ## Claim C9: the resolver is total -/

/-- C9: evaluation of the resolver with JavaScript exceptions made
explicit never produces an error — the two throwing operations it uses
(decodeURI and fileURLToPath) are both wrapped in try/catch — and the
returned path is exactly the one of the pure resolver.  Existence of the
returned path is not guaranteed: on an empty filesystem the returned
path does not exist. -/
theorem c9_resolver_total :
    (∀ (fs : FS) (rawSrc baseDir : LStr),
       resolveLocalPathE fs rawSrc baseDir =
         .ok (resolveLocalPath fs rawSrc baseDir)) ∧
    fsEmpty.existsAt (resolveLocalPath fsEmpty "ghost.png".toList "/b".toList) = false := by
  constructor
  · intro fs r b
    have ht : resolveLocalPathTailE fs r b = resolveLocalPathTail fs r b := rfl
    unfold resolveLocalPathE resolveLocalPath
    split
    · cases hf : fileURLToPath r <;> simp [ht]
    · simp [ht]
  · decide

/-! ## Claim C3: resolution failures are non-fatal -/

theorem warnOnce_mem (st : RunState) (key reason : LStr) (size : Option Nat)
    (errMsg : Option LStr) : key ∈ (warnOnce st key reason size errMsg).seenWarn := by
  unfold warnOnce
  by_cases h : key ∈ st.seenWarn
  · rw [if_pos h]; exact h
  · rw [if_neg h]; exact List.mem_cons_self key _

theorem srcsetLoop_length (w : World) :
    ∀ (parts : List LStr) (st : RunState),
      (srcsetLoop w parts st).1.length = parts.length := by
  intro parts
  induction parts with
  | nil => intro st; simp [srcsetLoop]
  | cons p ps ih =>
    intro st
    simp only [srcsetLoop]
    simp [ih]

theorem resolveRemoteCached_replacedCount (w : World) (st : RunState) (url : LStr) :
    (resolveRemoteCached w st url).2.replacedCount = st.replacedCount := by
  unfold resolveRemoteCached
  cases cacheGet st.cache url <;> simp

/-- C3: no resolution failure aborts the run and every failing reference
keeps its original text.  Formally: the srcset loop always produces one
output item per input item; a failing srcset item (local or remote) is
echoed verbatim and its diagnostics key is in the warn-once set
afterwards; a failing src attribute — whether it resolved locally or
fetched remotely — leaves the tag text unchanged, does not count as a
replacement, and records its diagnostics key; and on the specification's
example document the output holds the encoded `a.png 1x` item next to
the untouched `missing.png 2x` item with exactly one diagnostic line. -/
theorem c3_failure_nonfatal :
    (∀ (w : World) (parts : List LStr) (st : RunState),
       (srcsetLoop w parts st).1.length = parts.length) ∧
    (∀ (w : World) (st : RunState) (part u d reason : LStr) size errMsg,
       parseSrcsetItem part = some (u, d) →
       isDataUrl u = false → isRemote u = false →
       toDataUrlLocal w.fs (resolveLocalPath w.fs u w.baseDir) w.maxBytes =
         .fail reason size errMsg →
       (srcsetItemStep w st part).1 = part ∧
         ("srcset:".toList ++ u) ∈ (srcsetItemStep w st part).2.seenWarn) ∧
    (∀ (w : World) (st : RunState) (part u d reason : LStr) size errMsg,
       parseSrcsetItem part = some (u, d) →
       isDataUrl u = false → isRemote u = true →
       (resolveRemoteCached w st u).1 = .fail reason size errMsg →
       (srcsetItemStep w st part).1 = part ∧
         ("srcset:".toList ++ u) ∈ (srcsetItemStep w st part).2.seenWarn) ∧
    (∀ (w : World) (st : RunState) (tag src reason : LStr) size errMsg,
       getAttrFromTag tag "src".toList = some src → src ≠ [] →
       isDataUrl src = false → isRemote src = false →
       toDataUrlLocal w.fs (resolveLocalPath w.fs src w.baseDir) w.maxBytes =
         .fail reason size errMsg →
       (processSrcPart w st tag).1 = tag ∧
         ("src:".toList ++ src) ∈ (processSrcPart w st tag).2.seenWarn ∧
         (processSrcPart w st tag).2.replacedCount = st.replacedCount) ∧
    (∀ (w : World) (st : RunState) (tag src reason : LStr) size errMsg,
       getAttrFromTag tag "src".toList = some src → src ≠ [] →
       isDataUrl src = false → isRemote src = true →
       (resolveRemoteCached w st src).1 = .fail reason size errMsg →
       (processSrcPart w st tag).1 = tag ∧
         ("src:".toList ++ src) ∈ (processSrcPart w st tag).2.seenWarn ∧
         (processSrcPart w st tag).2.replacedCount = st.replacedCount) ∧
    (transformSrcsetValue wC3 initState "a.png 1x, missing.png 2x".toList =
       ("data:image/png;base64,AQ== 1x, missing.png 2x".toList,
        ⟨[], ["srcset:missing.png".toList],
         ["[warn] srcset:missing.png → File not found".toList], [], 0, 0⟩)) := by
  refine ⟨fun w parts st => srcsetLoop_length w parts st, ?_, ?_, ?_, ?_, by decide⟩
  · intro w st part u d reason size errMsg hparse hdata hremote hfail
    simp only [srcsetItemStep, hparse, hdata, hremote, hfail]
    simp [warnOnce_mem]
  · intro w st part u d reason size errMsg hparse hdata hremote hfail
    simp only [srcsetItemStep, hparse, hdata, hremote]
    cases hrc : resolveRemoteCached w st u with
    | mk o st1 =>
      rw [hrc] at hfail
      simp at hfail
      rw [hfail]
      simp [warnOnce_mem]
  · intro w st tag src reason size errMsg hattr hne hdata hremote hfail
    simp only [processSrcPart, hattr, hne, hdata, hremote, hfail]
    simp only [warnOnce]
    by_cases h : ("src:".toList ++ src) ∈ st.seenWarn
    · simp at h; simp [h]
    · simp at h; simp [h]
  · intro w st tag src reason size errMsg hattr hne hdata hremote hfail
    simp only [processSrcPart, hattr, hne, hdata, hremote]
    cases hrc : resolveRemoteCached w st src with
    | mk o st1 =>
      have hrep : st1.replacedCount = st.replacedCount := by
        have := resolveRemoteCached_replacedCount w st src
        rw [hrc] at this
        exact this
      rw [hrc] at hfail
      simp at hfail
      rw [hfail]
      simp only [warnOnce]
      by_cases h : ("src:".toList ++ src) ∈ st1.seenWarn
      · simp at h; simp [h, hrep]
      · simp at h; simp [h, hrep]

theorem c3_failure_nonfatal_witness :
    (srcsetItemStep wC3 initState "missing.png 2x".toList).1 = "missing.png 2x".toList ∧
      ("srcset:".toList ++ "missing.png".toList) ∈
        (srcsetItemStep wC3 initState "missing.png 2x".toList).2.seenWarn :=
  c3_failure_nonfatal.2.1 wC3 initState "missing.png 2x".toList "missing.png".toList
    "2x".toList "not_found".toList none none (by decide) (by decide) (by decide) (by decide)

/-! ## Claim C10: srcset reassembly and the touched counter -/

theorem warnOnce_srcsetCount (st : RunState) (key reason : LStr) (size : Option Nat)
    (errMsg : Option LStr) : (warnOnce st key reason size errMsg).srcsetCount = st.srcsetCount := by
  unfold warnOnce
  by_cases h : key ∈ st.seenWarn
  · rw [if_pos h]
  · rw [if_neg h]

theorem warnOnce_replacedCount (st : RunState) (key reason : LStr) (size : Option Nat)
    (errMsg : Option LStr) :
    (warnOnce st key reason size errMsg).replacedCount = st.replacedCount := by
  unfold warnOnce
  by_cases h : key ∈ st.seenWarn
  · rw [if_pos h]
  · rw [if_neg h]

theorem resolveRemoteCached_srcsetCount (w : World) (st : RunState) (url : LStr) :
    (resolveRemoteCached w st url).2.srcsetCount = st.srcsetCount := by
  unfold resolveRemoteCached
  cases cacheGet st.cache url <;> simp

theorem srcsetItemStep_srcsetCount (w : World) (st : RunState) (part : LStr) :
    (srcsetItemStep w st part).2.srcsetCount = st.srcsetCount := by
  unfold srcsetItemStep
  cases hp : parseSrcsetItem part with
  | none => simp
  | some q =>
    obtain ⟨u, d⟩ := q
    by_cases hd : isDataUrl u
    · simp [hd]
    · simp only [hd]
      by_cases hr : isRemote u
      · simp only [hr]
        cases hrc : resolveRemoteCached w st u with
        | mk o st1 =>
          have h1 : st1.srcsetCount = st.srcsetCount := by
            have := resolveRemoteCached_srcsetCount w st u
            rw [hrc] at this
            exact this
          cases o with
          | ok dd => simp [h1]
          | fail reason size errMsg => simp [warnOnce_srcsetCount, h1]
      · simp only [hr]
        cases toDataUrlLocal w.fs (resolveLocalPath w.fs u w.baseDir) w.maxBytes with
        | ok dd => simp
        | fail reason size errMsg => simp [warnOnce_srcsetCount]

theorem srcsetLoop_srcsetCount (w : World) :
    ∀ (parts : List LStr) (st : RunState),
      (srcsetLoop w parts st).2.srcsetCount = st.srcsetCount := by
  intro parts
  induction parts with
  | nil => intro st; simp [srcsetLoop]
  | cons p ps ih =>
    intro st
    simp only [srcsetLoop]
    cases hstep : srcsetItemStep w st p with
    | mk o st1 =>
      have h1 : st1.srcsetCount = st.srcsetCount := by
        have := srcsetItemStep_srcsetCount w st p
        rw [hstep] at this
        exact this
      simp [ih st1, h1]

theorem transformSrcsetValue_srcsetCount (w : World) (st : RunState) (s : LStr) :
    (transformSrcsetValue w st s).2.srcsetCount = st.srcsetCount := by
  unfold transformSrcsetValue
  cases hl : srcsetLoop w (parseParts s) st with
  | mk outs st1 =>
    have := srcsetLoop_srcsetCount w (parseParts s) st
    rw [hl] at this
    exact this

theorem processSrcPart_srcsetCount (w : World) (st : RunState) (tag : LStr) :
    (processSrcPart w st tag).2.srcsetCount = st.srcsetCount := by
  unfold processSrcPart
  cases hattr : getAttrFromTag tag "src".toList with
  | none => simp
  | some src =>
    by_cases he : src = []
    · simp [he]
    · simp only [he]
      by_cases hd : isDataUrl src
      · simp [hd]
      · simp only [hd]
        by_cases hr : isRemote src
        · simp only [hr]
          cases hrc : resolveRemoteCached w st src with
          | mk o st1 =>
            have h1 : st1.srcsetCount = st.srcsetCount := by
              have := resolveRemoteCached_srcsetCount w st src
              rw [hrc] at this
              exact this
            cases o with
            | ok dd => simp [h1]
            | fail reason size errMsg => simp [warnOnce_srcsetCount, h1]
        · simp only [hr]
          cases toDataUrlLocal w.fs (resolveLocalPath w.fs src w.baseDir) w.maxBytes with
          | ok dd => simp
          | fail reason size errMsg => simp [warnOnce_srcsetCount]

/-- C10: the engine rebuilds an srcset value as its trimmed nonempty
comma-separated items — one output item per input item, each either the
original item text (skipped or failed) or an encoded replacement with the
descriptor preserved — rejoined with the fixed ", " separator; the
srcset-touched counter increments exactly when the rebuilt text differs
from the original attribute value, which can happen with no successful
inlining at all (pure whitespace and separator normalization), as the
concrete document shows. -/
theorem c10_srcset_reassembly :
    (∀ (w : World) (st : RunState) (srcset : LStr),
       transformSrcsetValue w st srcset =
         ((joinSep ", ".toList (srcsetLoop w (parseParts srcset) st).1),
          (srcsetLoop w (parseParts srcset) st).2) ∧
       (srcsetLoop w (parseParts srcset) st).1.length = (parseParts srcset).length) ∧
    (∀ (w : World) (st : RunState) (part : LStr),
       (srcsetItemStep w st part).1 = part ∨
       ∃ u desc dataUrl, parseSrcsetItem part = some (u, desc) ∧
         ((srcsetItemStep w st part).1 = dataUrl ++ ' ' :: desc ∨
          (srcsetItemStep w st part).1 = dataUrl)) ∧
    (∀ (w : World) (st : RunState) (tag srcset : LStr),
       getAttrFromTag tag "srcset".toList = some srcset → srcset ≠ [] →
       (transformImgTag w st tag).2.srcsetCount =
         st.srcsetCount +
           (if (transformSrcsetValue w (processSrcPart w st tag).2 srcset).1 ≠ srcset
            then 1 else 0)) ∧
    (∀ (w : World) (st : RunState) (tag : LStr),
       getAttrFromTag tag "srcset".toList = none ∨
         getAttrFromTag tag "srcset".toList = some [] →
       (transformImgTag w st tag).2.srcsetCount = st.srcsetCount) ∧
    ((transformSrcsetValue wTriv initState "data:a,data:b".toList).1 =
       "data:a, data:b".toList ∧
     (transformSrcsetValue wTriv initState "data:a,data:b".toList).2 = initState ∧
     (processHtml wTriv initState docC10).2.srcsetCount = 1 ∧
     (processHtml wTriv initState docC10).2.replacedCount = 0 ∧
     (processHtml wTriv initState docC10).2.fetchLog = [] ∧
     (processHtml wTriv initState docC10).2.warnLog = []) := by
  refine ⟨?_, ?_, ?_, ?_, by decide⟩
  · intro w st srcset
    constructor
    · unfold transformSrcsetValue
      cases hl : srcsetLoop w (parseParts srcset) st with
      | mk outs st1 => simp
    · exact srcsetLoop_length w (parseParts srcset) st
  · intro w st part
    unfold srcsetItemStep
    cases hp : parseSrcsetItem part with
    | none => left; rfl
    | some q =>
      obtain ⟨u, d⟩ := q
      by_cases hd : isDataUrl u
      · left; simp [hd]
      · simp only [hd]
        by_cases hr : isRemote u
        · simp only [hr]
          cases hrc : resolveRemoteCached w st u with
          | mk o st1 =>
            cases o with
            | ok dd =>
              right
              refine ⟨u, d, dd, rfl, ?_⟩
              by_cases hde : d = []
              · right; simp [hde]
              · left; simp [hde]
            | fail reason size errMsg => left; simp
        · simp only [hr]
          cases toDataUrlLocal w.fs (resolveLocalPath w.fs u w.baseDir) w.maxBytes with
          | ok dd =>
            right
            refine ⟨u, d, dd, rfl, ?_⟩
            by_cases hde : d = []
            · right; simp [hde]
            · left; simp [hde]
          | fail reason size errMsg => left; simp
  · intro w st tag srcset hattr hne
    unfold transformImgTag
    cases hps : processSrcPart w st tag with
    | mk changed st1 =>
      have h1 : st1.srcsetCount = st.srcsetCount := by
        have := processSrcPart_srcsetCount w st tag
        rw [hps] at this
        exact this
      simp only [hattr, hne]
      cases htv : transformSrcsetValue w st1 srcset with
      | mk newVal st2 =>
        have h2 : st2.srcsetCount = st1.srcsetCount := by
          have := transformSrcsetValue_srcsetCount w st1 srcset
          rw [htv] at this
          exact this
        by_cases hnv : newVal ≠ srcset
        · simp [hnv, h1, h2]
        · simp [hnv, h1, h2]
  · intro w st tag hcase
    unfold transformImgTag
    cases hps : processSrcPart w st tag with
    | mk changed st1 =>
      have h1 : st1.srcsetCount = st.srcsetCount := by
        have := processSrcPart_srcsetCount w st tag
        rw [hps] at this
        exact this
      rcases hcase with h | h
      · rw [h]; simp [h1]
      · rw [h]; simp [h1]

theorem c10_srcset_reassembly_witness :
    (transformImgTag wTriv initState "<img srcset=\"data:a,data:b\">".toList).2.srcsetCount =
      initState.srcsetCount +
        (if (transformSrcsetValue wTriv
              (processSrcPart wTriv initState "<img srcset=\"data:a,data:b\">".toList).2
              "data:a,data:b".toList).1 ≠ "data:a,data:b".toList
         then 1 else 0) :=
  c10_srcset_reassembly.2.2.1 wTriv initState "<img srcset=\"data:a,data:b\">".toList
    "data:a,data:b".toList (by decide) (by decide)

/-! ## Claim C2: request coalescing on the remote cache -/

theorem cacheGet_mem :
    ∀ (cache : List (LStr × Outcome)) (key : LStr) (o : Outcome),
      cacheGet cache key = some o → (key, o) ∈ cache
  | [], key, o => by simp [cacheGet]
  | (k, v) :: rest, key, o => by
    simp only [cacheGet]
    by_cases h : k = key
    · rw [if_pos h]
      intro ho
      rw [Option.some.injEq] at ho
      subst h; subst ho
      exact List.mem_cons_self _ _
    · rw [if_neg h]
      intro ho
      exact List.mem_cons_of_mem _ (cacheGet_mem rest key o ho)

theorem cacheGet_none :
    ∀ (cache : List (LStr × Outcome)) (key : LStr),
      cacheGet cache key = none → ∀ o, (key, o) ∉ cache
  | [], key => by simp
  | (k, v) :: rest, key => by
    simp only [cacheGet]
    by_cases h : k = key
    · rw [if_pos h]; intro ho; exact absurd ho (by simp)
    · rw [if_neg h]
      intro ho o hmem
      rcases List.mem_cons.mp hmem with heq | hmem2
      · rw [Prod.mk.injEq] at heq
        exact h heq.1.symm
      · exact cacheGet_none rest key ho o hmem2

theorem engineInv_init (w : World) : engineInv w initState := by
  refine ⟨fun u o h => absurd h (by simp [initState]), by simp [initState], ?_⟩
  intro u
  simp [initState]

theorem engineInv_congr (w : World) (st st' : RunState)
    (hc : st'.cache = st.cache) (hf : st'.fetchLog = st.fetchLog)
    (h : engineInv w st) : engineInv w st' := by
  obtain ⟨h1, h2, h3⟩ := h
  exact ⟨fun u o hm => h1 u o (hc ▸ hm), hf ▸ h2, fun u => by rw [hf, hc]; exact h3 u⟩

theorem resolveRemoteCached_inv (w : World) (st : RunState) (url : LStr)
    (h : engineInv w st) : engineInv w (resolveRemoteCached w st url).2 := by
  obtain ⟨h1, h2, h3⟩ := h
  unfold resolveRemoteCached
  cases hg : cacheGet st.cache url with
  | some o => exact ⟨h1, h2, h3⟩
  | none =>
    have hnotin : url ∉ st.fetchLog := by
      rw [h3 url]
      rintro ⟨o, hmem⟩
      exact cacheGet_none st.cache url hg o hmem
    refine ⟨?_, ?_, ?_⟩
    · intro u o hmem
      rcases List.mem_cons.mp hmem with heq | hmem2
      · rw [Prod.mk.injEq] at heq
        rw [heq.1, ← heq.2]
      · exact h1 u o hmem2
    · exact List.Nodup.cons hnotin h2
    · intro u
      constructor
      · intro hu
        rcases List.mem_cons.mp hu with heq | hu2
        · exact ⟨toDataUrlRemote w.net url w.maxBytes, by rw [heq]; exact List.mem_cons_self _ _⟩
        · obtain ⟨o, ho⟩ := (h3 u).mp hu2
          exact ⟨o, List.mem_cons_of_mem _ ho⟩
      · rintro ⟨o, ho⟩
        rcases List.mem_cons.mp ho with heq | ho2
        · rw [Prod.mk.injEq] at heq
          rw [heq.1]
          exact List.mem_cons_self _ _
        · exact List.mem_cons_of_mem _ ((h3 u).mpr ⟨o, ho2⟩)

theorem resolveRemoteCached_val (w : World) (st : RunState) (url : LStr)
    (h : cacheConsistent w st) :
    (resolveRemoteCached w st url).1 = toDataUrlRemote w.net url w.maxBytes := by
  unfold resolveRemoteCached
  cases hg : cacheGet st.cache url with
  | some o => exact h url o (cacheGet_mem st.cache url o hg)
  | none => rfl

theorem warnOnce_inv (w : World) (st : RunState) (key reason : LStr) (size : Option Nat)
    (errMsg : Option LStr) (h : engineInv w st) :
    engineInv w (warnOnce st key reason size errMsg) := by
  unfold warnOnce
  by_cases hk : key ∈ st.seenWarn
  · rwa [if_pos hk]
  · rw [if_neg hk]
    exact engineInv_congr w st _ rfl rfl h

theorem srcsetItemStep_inv (w : World) (st : RunState) (part : LStr)
    (h : engineInv w st) : engineInv w (srcsetItemStep w st part).2 := by
  unfold srcsetItemStep
  cases hp : parseSrcsetItem part with
  | none => exact h
  | some q =>
    obtain ⟨u, d⟩ := q
    by_cases hd : isDataUrl u
    · simp only [hd]; exact h
    · simp only [hd]
      by_cases hr : isRemote u
      · simp only [hr]
        have hinv1 := resolveRemoteCached_inv w st u h
        cases hrc : resolveRemoteCached w st u with
        | mk o st1 =>
          rw [hrc] at hinv1
          cases o with
          | ok dd => exact hinv1
          | fail reason size errMsg => exact warnOnce_inv w st1 _ _ _ _ hinv1
      · simp only [hr]
        cases toDataUrlLocal w.fs (resolveLocalPath w.fs u w.baseDir) w.maxBytes with
        | ok dd => exact h
        | fail reason size errMsg => exact warnOnce_inv w st _ _ _ _ h

theorem srcsetLoop_inv (w : World) :
    ∀ (parts : List LStr) (st : RunState),
      engineInv w st → engineInv w (srcsetLoop w parts st).2 := by
  intro parts
  induction parts with
  | nil => intro st h; exact h
  | cons p ps ih =>
    intro st h
    simp only [srcsetLoop]
    have h1 := srcsetItemStep_inv w st p h
    cases hstep : srcsetItemStep w st p with
    | mk o st1 =>
      rw [hstep] at h1
      have h2 := ih st1 h1
      cases hl : srcsetLoop w ps st1 with
      | mk os st2 =>
        rw [hl] at h2
        exact h2

theorem transformSrcsetValue_inv (w : World) (st : RunState) (s : LStr)
    (h : engineInv w st) : engineInv w (transformSrcsetValue w st s).2 := by
  unfold transformSrcsetValue
  have h1 := srcsetLoop_inv w (parseParts s) st h
  cases hl : srcsetLoop w (parseParts s) st with
  | mk os st1 =>
    rw [hl] at h1
    exact h1

theorem processSrcPart_inv (w : World) (st : RunState) (tag : LStr)
    (h : engineInv w st) : engineInv w (processSrcPart w st tag).2 := by
  unfold processSrcPart
  cases hattr : getAttrFromTag tag "src".toList with
  | none => exact h
  | some src =>
    by_cases he : src = []
    · simp only [he]; exact h
    · simp only [he]
      by_cases hd : isDataUrl src
      · simp only [hd]; exact h
      · simp only [hd]
        by_cases hr : isRemote src
        · simp only [hr]
          have hinv1 := resolveRemoteCached_inv w st src h
          cases hrc : resolveRemoteCached w st src with
          | mk o st1 =>
            rw [hrc] at hinv1
            cases o with
            | ok dd => exact engineInv_congr w st1 _ rfl rfl hinv1
            | fail reason size errMsg => exact warnOnce_inv w st1 _ _ _ _ hinv1
        · simp only [hr]
          cases toDataUrlLocal w.fs (resolveLocalPath w.fs src w.baseDir) w.maxBytes with
          | ok dd => exact engineInv_congr w st _ rfl rfl h
          | fail reason size errMsg => exact warnOnce_inv w st _ _ _ _ h

theorem transformImgTag_inv (w : World) (st : RunState) (tag : LStr)
    (h : engineInv w st) : engineInv w (transformImgTag w st tag).2 := by
  unfold transformImgTag
  have h1 := processSrcPart_inv w st tag h
  cases hps : processSrcPart w st tag with
  | mk changed st1 =>
    rw [hps] at h1
    cases hattr : getAttrFromTag tag "srcset".toList with
    | none => exact h1
    | some srcset =>
      dsimp only
      by_cases he : srcset = []
      · rw [if_pos he]; exact h1
      · rw [if_neg he]
        have h2 := transformSrcsetValue_inv w st1 srcset h1
        cases htv : transformSrcsetValue w st1 srcset with
        | mk newVal st2 =>
          rw [htv] at h2
          by_cases hnv : newVal ≠ srcset
          · rw [if_pos hnv]
            exact engineInv_congr w st2 _ rfl rfl h2
          · rw [if_neg hnv]
            exact h2

theorem renderSegs_inv (w : World) :
    ∀ (segs : List Seg) (st : RunState),
      engineInv w st → engineInv w (renderSegs w segs st).2 := by
  intro segs
  induction segs with
  | nil => intro st h; exact h
  | cons seg rest ih =>
    intro st h
    cases seg with
    | text t =>
      simp only [renderSegs]
      have h1 := ih st h
      cases hr : renderSegs w rest st with
      | mk o st1 => rw [hr] at h1; exact h1
    | tag t =>
      simp only [renderSegs]
      have h1 := transformImgTag_inv w st t h
      cases ht : transformImgTag w st t with
      | mk t1 st1 =>
        rw [ht] at h1
        have h2 := ih st1 h1
        cases hr : renderSegs w rest st1 with
        | mk o st2 => rw [hr] at h2; exact h2

/-- C2: over any whole run, each distinct remote raw-reference text
triggers at most one network transfer (the transfer log of the final
state has no duplicates), every cache entry holds exactly the outcome of
the single fetch of its URL, and every requester — any call that goes
through the cache in a consistent state — observes that same outcome. -/
theorem c2_remote_coalescing :
    ∀ (w : World) (html : LStr),
      (processHtml w initState html).2.fetchLog.Nodup ∧
      (∀ u o, (u, o) ∈ (processHtml w initState html).2.cache →
         o = toDataUrlRemote w.net u w.maxBytes) ∧
      (∀ st : RunState, cacheConsistent w st →
         ∀ u, (resolveRemoteCached w st u).1 = toDataUrlRemote w.net u w.maxBytes) := by
  intro w html
  have h := renderSegs_inv w (scanImg html) initState (engineInv_init w)
  obtain ⟨h1, h2, h3⟩ := h
  exact ⟨h2, h1, fun st hc u => resolveRemoteCached_val w st u hc⟩

theorem c2_remote_coalescing_witness :
    ((processHtml wC2 initState docC2).2.fetchLog.Nodup ∧
     (∀ u o, (u, o) ∈ (processHtml wC2 initState docC2).2.cache →
        o = toDataUrlRemote wC2.net u wC2.maxBytes) ∧
     (∀ st : RunState, cacheConsistent wC2 st →
        ∀ u, (resolveRemoteCached wC2 st u).1 = toDataUrlRemote wC2.net u wC2.maxBytes)) ∧
    (processHtml wC2 initState docC2).2.fetchLog = ["http://r/i.png".toList] ∧
    (processHtml wC2 initState docC2).2.replacedCount = 2 :=
  ⟨c2_remote_coalescing wC2 docC2, by decide, by decide⟩

/-! ## Claim C8: case-insensitive local resolution -/

theorem pctDecodeGo_no_pct (keep : Char → Bool) :
    ∀ (fuel : Nat) (s : LStr), '%' ∉ s → s.length < fuel →
      pctDecodeGo keep fuel s = some s := by
  intro fuel
  induction fuel with
  | zero => intro s hp hlen; omega
  | succ n ih =>
    intro s hp hlen
    cases s with
    | nil => rfl
    | cons c cs =>
      have hc : c ≠ '%' := fun h => hp (h ▸ List.mem_cons_self c cs)
      have hcs : '%' ∉ cs := fun h => hp (List.mem_cons_of_mem c h)
      have hlen2 : cs.length < n := by simpa using Nat.lt_of_succ_lt_succ hlen
      have heq := ih cs hcs hlen2
      rw [pctDecodeGo]
      · simp [heq]
      · exact fun h => hc h

theorem splitChar_ne_nil (sep : Char) (s : LStr) : splitChar sep s ≠ [] := by
  cases s with
  | nil => simp [splitChar]
  | cons c cs =>
    simp only [splitChar]
    cases h : splitChar sep cs with
    | nil => simp
    | cons g gs =>
      by_cases hc : c == sep <;> simp [hc]

theorem jsDecodeURI_no_pct (s : LStr) (h : '%' ∉ s) : jsDecodeURI s = some s :=
  pctDecodeGo_no_pct uriReservedKeep (s.length + 1) s h (Nat.lt_succ_self _)

theorem indexOfChar_none (ch : Char) :
    ∀ s : LStr, ch ∉ s → indexOfChar ch s = none
  | [], _ => rfl
  | c :: cs, h => by
    have hc : ¬(c == ch) := by
      simp only [beq_iff_eq]
      exact fun hh => h (hh ▸ List.mem_cons_self c cs)
    simp only [indexOfChar, if_neg hc]
    rw [indexOfChar_none ch cs (fun hm => h (List.mem_cons_of_mem c hm))]

theorem stripQueryHash_id (s : LStr) (hq : '?' ∉ s) (hh : '#' ∉ s) :
    stripQueryHash s = s := by
  unfold stripQueryHash
  rw [indexOfChar_none '?' s hq, indexOfChar_none '#' s hh]
  simp

theorem splitChar_no_sep (sep : Char) :
    ∀ s : LStr, sep ∉ s → splitChar sep s = [s]
  | [], _ => rfl
  | c :: cs, h => by
    have hc : ¬(c == sep) := by
      simp only [beq_iff_eq]
      exact fun hh => h (hh ▸ List.mem_cons_self c cs)
    simp only [splitChar]
    rw [splitChar_no_sep sep cs (fun hm => h (List.mem_cons_of_mem c hm))]
    simp [hc]

theorem splitChar_append_sep (sep : Char) :
    ∀ (x t : LStr), sep ∉ x →
      splitChar sep (x ++ sep :: t) = x :: splitChar sep t
  | [], t, _ => by
    simp only [List.nil_append, splitChar]
    cases hs : splitChar sep t with
    | nil => exact absurd hs (splitChar_ne_nil sep t)
    | cons g gs => simp
  | c :: x', t, h => by
    have hc : ¬(c == sep) := by
      simp only [beq_iff_eq]
      exact fun hh => h (hh ▸ List.mem_cons_self c x')
    have ih := splitChar_append_sep sep x' t (fun hm => h (List.mem_cons_of_mem c hm))
    simp only [List.cons_append, splitChar, List.append_eq]
    rw [ih]
    simp [hc]

theorem splitChar_joinSep (sep : Char) :
    ∀ segs : List LStr, segs ≠ [] → (∀ g ∈ segs, sep ∉ g) →
      splitChar sep (joinSep [sep] segs) = segs
  | [], h, _ => absurd rfl h
  | [x], _, hall => by
    simp only [joinSep]
    exact splitChar_no_sep sep x (hall x (List.mem_singleton_self x))
  | x :: y :: rest, _, hall => by
    simp only [joinSep]
    have hx : sep ∉ x := hall x (List.mem_cons_self _ _)
    have ih := splitChar_joinSep sep (y :: rest) (by simp)
      (fun g hg => hall g (List.mem_cons_of_mem x hg))
    rw [show x ++ [sep] ++ joinSep [sep] (y :: rest) =
        x ++ sep :: joinSep [sep] (y :: rest) by simp]
    rw [splitChar_append_sep sep x _ hx, ih]

theorem normSegsGo_plain (isAbs : Bool) :
    ∀ (segs : List LStr) (acc : List LStr),
      (∀ g ∈ segs, g ≠ [] ∧ g ≠ ['.'] ∧ g ≠ ['.', '.']) →
      normSegsGo isAbs acc segs = acc.reverse ++ segs
  | [], acc, _ => by simp [normSegsGo]
  | g :: rest, acc, hall => by
    obtain ⟨h1, h2, h3⟩ := hall g (List.mem_cons_self _ _)
    have hrest := fun x hx => hall x (List.mem_cons_of_mem g hx)
    simp only [normSegsGo]
    rw [if_neg (by simp [h1, h2]), if_neg h3]
    rw [normSegsGo_plain isAbs rest (g :: acc) hrest]
    simp

theorem mem_joinSep (sep : Char) :
    ∀ (segs : List LStr) (c : Char), c ∈ joinSep [sep] segs →
      c = sep ∨ ∃ g ∈ segs, c ∈ g
  | [], c, h => by simp [joinSep] at h
  | [x], c, h => by
    right
    exact ⟨x, List.mem_singleton_self x, by simpa [joinSep] using h⟩
  | x :: y :: rest, c, h => by
    simp only [joinSep, List.append_assoc, List.mem_append] at h
    rcases h with hx | h
    · right; exact ⟨x, List.mem_cons_self _ _, hx⟩
    · simp only [List.mem_append, List.mem_singleton] at h
      rcases h with hs | hj
      · left; exact hs
      · rcases mem_joinSep sep (y :: rest) c hj with hs | ⟨g, hg, hc⟩
        · left; exact hs
        · right; exact ⟨g, List.mem_cons_of_mem x hg, hc⟩

theorem joinSep_head (sep : Char) :
    ∀ (x : LStr) (rest : List LStr), x ≠ [] →
      (joinSep [sep] (x :: rest)).head? = x.head?
  | [], _, h => absurd rfl h
  | c :: x', rest, _ => by
    cases rest with
    | nil => simp [joinSep]
    | cons y t => simp [joinSep]

theorem joinSep_getLast (sep : Char) :
    ∀ (segs : List LStr) (x : LStr), segs ≠ [] → segs.getLast? = some x → x ≠ [] →
      (joinSep [sep] segs).getLast? = x.getLast?
  | [], x, hne, _, _ => absurd rfl hne
  | [g], x, _, hlast, hx => by
    simp at hlast
    subst hlast
    simp [joinSep]
  | g :: g2 :: rest, x, _, hlast, hx => by
    have hlast2 : (g2 :: rest).getLast? = some x := by
      rw [← hlast]
      exact (List.getLast?_cons_cons ..).symm
    have ih := joinSep_getLast sep (g2 :: rest) x (by simp) hlast2 hx
    have hne2 : joinSep [sep] (g2 :: rest) ≠ [] := by
      intro hnil
      rw [hnil] at ih
      have : x.getLast? = none := ih.symm
      cases x with
      | nil => exact hx rfl
      | cons a b => simp [List.getLast?] at this
    simp only [joinSep]
    rw [List.getLast?_append_of_ne_nil _ hne2]
    exact ih

theorem splitSlashes_no_bs :
    ∀ s : LStr, '\\' ∉ s → splitSlashes s = splitChar '/' s
  | [], _ => rfl
  | c :: cs, h => by
    have hcf : (c == '\\') = false := by
      simp only [beq_eq_false_iff_ne, ne_eq]
      exact fun hh => h (hh ▸ List.mem_cons_self c cs)
    have ih := splitSlashes_no_bs cs (fun hm => h (List.mem_cons_of_mem c hm))
    simp only [splitSlashes, splitChar, ih, hcf, Bool.or_false]

/-- All characters of a plain segment list avoid the special characters
the resolver pipeline reacts to. -/
theorem plain_chars_absent (segs : List LStr) (hall : ∀ g ∈ segs, plainSeg g = true)
    (c : Char) (hc : plainSegChar c = false) (hslash : c ≠ '/') :
    c ∉ joinSep ['/'] segs := by
  intro hmem
  rcases mem_joinSep '/' segs c hmem with hs | ⟨g, hg, hcin⟩
  · exact hslash hs
  · have := hall g hg
    simp only [plainSeg, Bool.and_eq_true, List.all_eq_true] at this
    have := this.2 c hcin
    rw [hc] at this
    exact Bool.noConfusion this

theorem plainSeg_facts (g : LStr) (h : plainSeg g = true) :
    g ≠ [] ∧ g ≠ ['.'] ∧ g ≠ ['.', '.'] ∧ '/' ∉ g := by
  simp only [plainSeg, Bool.and_eq_true, List.all_eq_true, decide_eq_true_eq] at h
  obtain ⟨⟨⟨h1, h2⟩, h3⟩, h4⟩ := h
  refine ⟨h1, h2, h3, ?_⟩
  intro hmem
  have := h4 '/' hmem
  simp [plainSegChar] at this

theorem posixNormalize_plain (segs : List LStr) (hne : segs ≠ [])
    (hall : ∀ g ∈ segs, plainSeg g = true) :
    posixNormalize (joinSep ['/'] segs) = joinSep ['/'] segs := by
  obtain ⟨s0, rest, rfl⟩ : ∃ s0 rest, segs = s0 :: rest := by
    cases segs with
    | nil => exact absurd rfl hne
    | cons a b => exact ⟨a, b, rfl⟩
  have hs0 := plainSeg_facts s0 (hall s0 (List.mem_cons_self _ _))
  obtain ⟨c0, s0', rfl⟩ : ∃ c0 s0', s0 = c0 :: s0' := by
    cases s0 with
    | nil => exact absurd rfl hs0.1
    | cons a b => exact ⟨a, b, rfl⟩
  have hraw_ne : joinSep ['/'] ((c0 :: s0') :: rest) ≠ [] := by
    intro hnil
    have := joinSep_head '/' (c0 :: s0') rest (by simp)
    rw [hnil] at this
    simp at this
  have hc0 : plainSegChar c0 = true := by
    have := hall (c0 :: s0') (List.mem_cons_self _ _)
    simp only [plainSeg, Bool.and_eq_true, List.all_eq_true] at this
    exact this.2 c0 (List.mem_cons_self _ _)
  have hc0slash : c0 ≠ '/' := by
    intro hh
    rw [hh] at hc0
    simp [plainSegChar] at hc0
  have hhead : (joinSep ['/'] ((c0 :: s0') :: rest)).head? = some c0 := by
    rw [joinSep_head '/' (c0 :: s0') rest (by simp)]
    rfl
  have hnotabs : ¬((joinSep ['/'] ((c0 :: s0') :: rest)).head? = some '/') := by
    rw [hhead]
    simp
    exact fun hh => hc0slash hh
  have hsplit : splitChar '/' (joinSep ['/'] ((c0 :: s0') :: rest)) = (c0 :: s0') :: rest :=
    splitChar_joinSep '/' _ (by simp) (fun g hg => (plainSeg_facts g (hall g hg)).2.2.2)
  have hnorm : normSegs false ((c0 :: s0') :: rest) = (c0 :: s0') :: rest := by
    unfold normSegs
    rw [normSegsGo_plain false _ [] (fun g hg =>
      ⟨(plainSeg_facts g (hall g hg)).1, (plainSeg_facts g (hall g hg)).2.1,
       (plainSeg_facts g (hall g hg)).2.2.1⟩)]
    simp
  -- the last segment is nonempty and slash-free, so no trailing slash
  have hlastseg : ∃ xl, ((c0 :: s0') :: rest).getLast? = some xl ∧ plainSeg xl = true := by
    refine ⟨((c0 :: s0') :: rest).getLast (by simp), List.getLast?_eq_getLast _ _, ?_⟩
    exact hall _ (List.getLast_mem _)
  obtain ⟨xl, hxl, hxlp⟩ := hlastseg
  have hxlfacts := plainSeg_facts xl hxlp
  have hgetlast : (joinSep ['/'] ((c0 :: s0') :: rest)).getLast? = xl.getLast? :=
    joinSep_getLast '/' _ xl (by simp) hxl hxlfacts.1
  have hnotslash_last : ¬((joinSep ['/'] ((c0 :: s0') :: rest)).getLast? = some '/') := by
    rw [hgetlast]
    intro hh
    have : '/' ∈ xl := by
      cases xl with
      | nil => simp [List.getLast?] at hh
      | cons a b =>
        have := List.getLast?_eq_getLast (a :: b) (by simp)
        rw [this] at hh
        rw [Option.some.injEq] at hh
        rw [← hh]
        exact List.getLast_mem _
    exact hxlfacts.2.2.2 this
  unfold posixNormalize
  rw [if_neg hraw_ne]
  have habs := decide_eq_false hnotabs
  simp only [hsplit, habs]
  simp only [hnorm]
  simp only [if_neg hnotabs, if_neg hraw_ne]
  simp [hnotslash_last]

theorem pathParts_plain (segs : List LStr) (hne : segs ≠ [])
    (hall : ∀ g ∈ segs, plainSeg g = true) :
    pathParts (joinSep ['/'] segs) = segs := by
  unfold pathParts
  have hbs : '\\' ∉ joinSep ['/'] segs :=
    plain_chars_absent segs hall '\\' (by decide) (by decide)
  rw [splitSlashes_no_bs _ hbs]
  rw [splitChar_joinSep '/' segs hne (fun g hg => (plainSeg_facts g (hall g hg)).2.2.2)]
  rw [List.filter_eq_self.mpr]
  intro g hg
  have := (plainSeg_facts g (hall g hg)).1
  simpa using this

theorem resolveTraverse_spec (fs : FS) (candidate : LStr) :
    ∀ (segs : List LStr) (cur : LStr),
      (∀ i, i < segs.length →
        fs.existsAt (specCaseInsensitiveWalk fs cur (segs.take i)) = true ∧
        fs.statIsDir (specCaseInsensitiveWalk fs cur (segs.take i)) = true) →
      resolveTraverse fs candidate segs cur = specCaseInsensitiveWalk fs cur segs
  | [], cur, _ => rfl
  | seg :: rest, cur, hdir => by
    have h0 := hdir 0 (by simp)
    simp only [List.take_zero, specCaseInsensitiveWalk] at h0
    simp only [resolveTraverse, specCaseInsensitiveWalk]
    rw [if_neg (by simp [h0.1, h0.2])]
    apply resolveTraverse_spec fs candidate rest
    intro i hi
    have := hdir (i + 1) (by simpa using Nat.succ_lt_succ hi)
    simpa [specCaseInsensitiveWalk] using this

/-- C8 main. -/
theorem c8_case_insensitive :
    (∀ (fs : FS) (baseDir : LStr) (segs : List LStr),
       posixResolve1 baseDir = baseDir →
       segs ≠ [] →
       (∀ g ∈ segs, plainSeg g = true) →
       fs.existsAt (posixResolve baseDir (joinSep ['/'] segs)) = false →
       (∀ i, i < segs.length →
          fs.existsAt (specCaseInsensitiveWalk fs baseDir (segs.take i)) = true ∧
          fs.statIsDir (specCaseInsensitiveWalk fs baseDir (segs.take i)) = true) →
       resolveLocalPath fs (joinSep ['/'] segs) baseDir =
         specCaseInsensitiveWalk fs baseDir segs) ∧
    (resolveLocalPath fsC8 "images/logo.png".toList "/b".toList =
       "/b/images/Logo.PNG".toList ∧
     toDataUrlLocal fsC8 (resolveLocalPath fsC8 "images/logo.png".toList "/b".toList) 100 =
       .ok (bufferToDataUrl [137, 80, 78, 71] (some "/b/images/Logo.PNG".toList) none) ∧
     fsC8.readFile "/b/images/Logo.PNG".toList = .ok [137, 80, 78, 71]) := by
  constructor
  · intro fs baseDir segs hbase hne hall hcand hdir
    have hcolon := plain_chars_absent segs hall ':' (by decide) (by decide)
    have hpct := plain_chars_absent segs hall '%' (by decide) (by decide)
    have hq := plain_chars_absent segs hall '?' (by decide) (by decide)
    have hhash := plain_chars_absent segs hall '#' (by decide) (by decide)
    have htake : ¬((joinSep ['/'] segs).take 7 = "file://".toList) := by
      intro hh
      apply hcolon
      have hmem : ':' ∈ (joinSep ['/'] segs).take 7 := by rw [hh]; decide
      exact List.take_subset 7 _ hmem
    have hdec : decodeMaybeURI (joinSep ['/'] segs) = joinSep ['/'] segs := by
      unfold decodeMaybeURI
      rw [jsDecodeURI_no_pct _ hpct]
    have hstrip := stripQueryHash_id (joinSep ['/'] segs) hq hhash
    have hnorm := posixNormalize_plain segs hne hall
    have hparts := pathParts_plain segs hne hall
    unfold resolveLocalPath
    rw [if_neg htake]
    unfold resolveLocalPathTail
    simp only [hdec, hstrip, hnorm, hparts, hbase, hcand]
    simp only [Bool.false_eq_true, if_false]
    exact resolveTraverse_spec fs _ segs baseDir hdir
  · refine ⟨by decide, by decide, by decide⟩

theorem c8_case_insensitive_witness :
    resolveLocalPath fsC8 (joinSep ['/'] ["images".toList, "logo.png".toList]) "/b".toList =
      specCaseInsensitiveWalk fsC8 "/b".toList ["images".toList, "logo.png".toList] :=
  c8_case_insensitive.1 fsC8 "/b".toList ["images".toList, "logo.png".toList]
    (by decide) (by decide) (by decide) (by decide)
    (fun i hi => by
      match i with
      | 0 => exact ⟨by decide, by decide⟩
      | 1 => exact ⟨by decide, by decide⟩
      | n + 2 => exact absurd hi (by simp))

/-! ## Claim C1: already-inlined documents -/

theorem processSrcPart_inlined (w : World) (st : RunState) (tag : LStr)
    (h : (match getAttrFromTag tag "src".toList with
          | none => true
          | some s => isDataUrl s) = true) :
    processSrcPart w st tag = (tag, st) := by
  unfold processSrcPart
  cases hattr : getAttrFromTag tag "src".toList with
  | none => rfl
  | some src =>
    rw [hattr] at h
    dsimp only at h ⊢
    by_cases he : src = []
    · rw [if_pos he]
    · rw [if_neg he, if_pos h]

theorem srcsetLoop_data (w : World) :
    ∀ (parts : List LStr) (st : RunState),
      (∀ p ∈ parts, (match parseSrcsetItem p with
        | some (u, _) => isDataUrl u
        | none => false) = true) →
      srcsetLoop w parts st = (parts, st)
  | [], st, _ => rfl
  | p :: ps, st, hall => by
    have hp := hall p (List.mem_cons_self _ _)
    have hstep : srcsetItemStep w st p = (p, st) := by
      unfold srcsetItemStep
      cases hparse : parseSrcsetItem p with
      | none => rfl
      | some q =>
        obtain ⟨u, d⟩ := q
        rw [hparse] at hp
        dsimp only at hp ⊢
        rw [if_pos hp]
    simp only [srcsetLoop, hstep]
    rw [srcsetLoop_data w ps st (fun x hx => hall x (List.mem_cons_of_mem p hx))]

theorem transformImgTag_inlined (w : World) (st : RunState) (tag : LStr)
    (h : tagFullyInlined tag = true) :
    ((transformImgTag w st tag).2 = st ∨
     (transformImgTag w st tag).2 = { st with srcsetCount := st.srcsetCount + 1 }) ∧
    (tagSrcsetNormalized tag = true → transformImgTag w st tag = (tag, st)) := by
  rw [tagFullyInlined, Bool.and_eq_true] at h
  have hps := processSrcPart_inlined w st tag h.1
  unfold transformImgTag
  rw [hps]
  dsimp only
  cases hattr : getAttrFromTag tag "srcset".toList with
  | none => exact ⟨Or.inl rfl, fun _ => rfl⟩
  | some s =>
    have hitems := h.2
    rw [hattr] at hitems
    simp only [List.all_eq_true] at hitems
    dsimp only
    by_cases he : s = []
    · rw [if_pos he]
      exact ⟨Or.inl rfl, fun _ => rfl⟩
    · rw [if_neg he]
      have htv : transformSrcsetValue w st s = (joinSep ", ".toList (parseParts s), st) := by
        unfold transformSrcsetValue
        rw [srcsetLoop_data w (parseParts s) st hitems]
      rw [htv]
      dsimp only
      by_cases hnv : joinSep ", ".toList (parseParts s) ≠ s
      · rw [if_pos hnv]
        refine ⟨Or.inr rfl, fun hnorm => ?_⟩
        rw [tagSrcsetNormalized, hattr] at hnorm
        rw [beq_iff_eq] at hnorm
        exact absurd hnorm.symm (by simpa using hnv)
      · rw [if_neg hnv]
        exact ⟨Or.inl rfl, fun _ => rfl⟩

theorem runState_update_update (st : RunState) (k n : Nat) :
    ({ ({ st with srcsetCount := k }) with srcsetCount := n } : RunState) =
      { st with srcsetCount := n } := rfl

theorem renderSegs_inlined (w : World) :
    ∀ (segs : List Seg) (st : RunState),
      (∀ t, Seg.tag t ∈ segs → tagFullyInlined t = true) →
      (∃ n, (renderSegs w segs st).2 = { st with srcsetCount := n }) ∧
      ((∀ t, Seg.tag t ∈ segs → tagSrcsetNormalized t = true) →
        renderSegs w segs st = (joinSegs segs, st))
  | [], st, _ => by
    constructor
    · exact ⟨st.srcsetCount, by cases st; rfl⟩
    · intro _; rfl
  | .text t :: rest, st, hall => by
    have ih := renderSegs_inlined w rest st
      (fun t' ht' => hall t' (List.mem_cons_of_mem _ ht'))
    constructor
    · obtain ⟨n, hn⟩ := ih.1
      refine ⟨n, ?_⟩
      simp only [renderSegs]
      cases hr : renderSegs w rest st with
      | mk o st1 =>
        rw [hr] at hn
        exact hn
    · intro hnorm
      have h2 := ih.2 (fun t' ht' => hnorm t' (List.mem_cons_of_mem _ ht'))
      simp only [renderSegs, h2, joinSegs]
  | .tag t :: rest, st, hall => by
    have htag := transformImgTag_inlined w st t (hall t (List.mem_cons_self _ _))
    constructor
    · simp only [renderSegs]
      cases htt : transformImgTag w st t with
      | mk t1 st1 =>
        have hst1 : st1 = st ∨ st1 = { st with srcsetCount := st.srcsetCount + 1 } := by
          rcases htag.1 with hh | hh <;> rw [htt] at hh <;> [exact Or.inl hh; exact Or.inr hh]
        have ih := renderSegs_inlined w rest st1
          (fun t' ht' => hall t' (List.mem_cons_of_mem _ ht'))
        obtain ⟨n, hn⟩ := ih.1
        refine ⟨n, ?_⟩
        cases hr : renderSegs w rest st1 with
        | mk o st2 =>
          rw [hr] at hn
          rcases hst1 with hh | hh
          · rw [hh] at hn
            exact hn
          · rw [hh] at hn
            rw [hn, runState_update_update]
    · intro hnorm
      have h1 := htag.2 (hnorm t (List.mem_cons_self _ _))
      have ih := renderSegs_inlined w rest st
        (fun t' ht' => hall t' (List.mem_cons_of_mem _ ht'))
      have h2 := ih.2 (fun t' ht' => hnorm t' (List.mem_cons_of_mem _ ht'))
      simp only [renderSegs, h1, h2, joinSegs]

/-- C1 counterexample: the document consists of one img tag whose srcset
items all carry data: URLs (and no src attribute), yet the run rewrites
the document text, so the output is not identical to the input.  The
third conjunct records exactly what the text becomes: the srcset rebuild
normalizes the separator to a comma and one space, and the attribute
splice of `replaceAttrInTag` (whose second regex replace matches only
the equals sign and opening quote) additionally duplicates the rebuilt
value after the closing quote. -/
theorem c1_full_inline_counterexample :
    docFullyInlined docC1 = true ∧
    (processHtml wTriv initState docC1).1 ≠ docC1 ∧
    (processHtml wTriv initState docC1).1 =
      "<img srcset=\"data:x, data:y\"data:x, data:y\">".toList := by
  exact ⟨by decide, by decide, by decide⟩

/-- C1 amended: on a document in which every src value and every srcset
item URL is already a data: reference, the run performs no inlining work
— the final state differs from the initial one at most in the
srcset-touched counter: no fetch, no cache entry, no diagnostic, no
src replacement — and the output text is identical to the input provided
each srcset attribute value is already in the engine's normal form
(items trimmed and joined with a comma and one space). -/
theorem c1_full_inline_amended :
    ∀ (w : World) (st : RunState) (html : LStr),
      docFullyInlined html = true →
      ((∃ n, (processHtml w st html).2 = { st with srcsetCount := n }) ∧
       (docSrcsetNormalized html = true → processHtml w st html = (html, st))) := by
  intro w st html hdoc
  unfold processHtml
  rw [docFullyInlined] at hdoc
  simp only [List.all_eq_true] at hdoc
  have hall : ∀ t, Seg.tag t ∈ scanImg html → tagFullyInlined t = true := by
    intro t ht
    simpa using hdoc _ ht
  have hmain := renderSegs_inlined w (scanImg html) st hall
  refine ⟨hmain.1, fun hnorm => ?_⟩
  rw [docSrcsetNormalized] at hnorm
  simp only [List.all_eq_true] at hnorm
  have hnall : ∀ t, Seg.tag t ∈ scanImg html → tagSrcsetNormalized t = true := by
    intro t ht
    simpa using hnorm _ ht
  rw [hmain.2 hnall, scanImg_join]

theorem c1_full_inline_amended_witness :
    ((∃ n, (processHtml wTriv initState docC1n).2 = { initState with srcsetCount := n }) ∧
     (docSrcsetNormalized docC1n = true →
        processHtml wTriv initState docC1n = (docC1n, initState))) ∧
    docSrcsetNormalized docC1n = true :=
  ⟨c1_full_inline_amended wTriv initState docC1n (by decide), by decide⟩
